import Mathlib

/-!
# Conway's Game of Life on a toroidal grid: packed cells with cached neighbour counts

A shallow embedding of `game_of_life.cpp` / `game_of_life.h`.

* The board `std::vector<std::vector<uint8_t>>` is a `List (List Nat)`; the outer index is
  `x`, the inner index is `y`, exactly as in `grid[x][y]`.
* Every element access is checked: reading or writing outside the vectors yields `none`
  (the C++ program has undefined behaviour there).
* `uint8_t` / `uint16_t` / `size_t` arithmetic is written on `Nat` and `Int` with explicit
  reductions modulo `2^8`, `2^16`, `2^64`.
-/

namespace GameOfLife

/-! # Definitions -/

/-! ## Data model -/

/-- The board: `grid[x][y]` is the packed content of the cell in column `x`, row `y`. -/
abbrev Grid := List (List Nat)

/-- Smallest accepted side length (`min_grid_size` in the header). -/
def min_grid_size : Nat := 3

/-- Largest accepted side length (`max_grid_size` in the header). -/
def max_grid_size : Nat := 200

/-- The enum `Cell_State`. -/
inductive Cell_State where
  | dead
  | alive
  deriving DecidableEq

/-- The struct `Position` (two `uint16_t` fields). -/
structure Position where
  x : Nat
  y : Nat
  deriving DecidableEq

/-! ## Machine integers -/

/-- Conversion of an `int` value to `uint8_t`. -/
def toU8 (i : Int) : Nat := (i % 256).toNat

/-- Conversion of an unsigned value to `uint16_t`. -/
def toU16 (n : Nat) : Nat := n % 65536

/-- The `size_t` expression `n - 1` (64-bit, wrapping at zero). -/
def sizeMinusOne (n : Nat) : Nat := (n + 2 ^ 64 - 1) % 2 ^ 64

/-! ## Checked element access -/

/-- Checked read of `grid[x][y]`. -/
def readCell (grid : Grid) (x y : Nat) : Option Nat := do
  let col ← grid[x]?
  col[y]?

/-- Checked read-modify-write of `grid[x][y]` (as in `grid[x][y] op= ...`). -/
def modifyCell (grid : Grid) (x y : Nat) (f : Nat → Nat) : Option Grid := do
  let col ← grid[x]?
  let v ← col[y]?
  pure (grid.set x (col.set y (f v)))

/-! ## The operations of the program -/

/-- Creates an NxN board full of dead cells. -/
def initialize_grid (grid_size : Nat) : Grid :=
  List.replicate grid_size (List.replicate grid_size 0)

/-- Bit 0 of the cell content: 1 if the cell is alive, 0 if it is dead. -/
def get_cell_state (cell_content : Nat) : Nat :=
  cell_content &&& 1

/-- The neighbour count stored in the bits above bit 0. -/
def get_neighbor_count (cell_content : Nat) : Nat :=
  cell_content >>> 1

/-- The statement `grid[cell.x][cell.y] |= 0b1` or `&= 0b1111'1110` of `update_cell`,
as a function on the stored byte. -/
def cellBits (new_cell_state : Cell_State) (v : Nat) : Nat :=
  if new_cell_state = Cell_State.alive then toU8 ((v ||| 1 : Nat) : Int)
  else toU8 ((v &&& 254 : Nat) : Int)

/-- Sets a cell's state as either alive or dead (bit 0 of the stored byte). -/
def update_cell (grid : Grid) (cell : Position) (new_cell_state : Cell_State) : Option Grid :=
  modifyCell grid cell.x cell.y (cellBits new_cell_state)

/-- The statement `... += new_cell_state == Cell_State::alive ? 0b10 : -0b10` of
`update_neighbors`, as a function on the stored byte: the sum is formed in `int` and
converted back to `uint8_t`. -/
def bumpCount (new_cell_state : Cell_State) (v : Nat) : Nat :=
  toU8 ((v : Int) + (if new_cell_state = Cell_State.alive then 2 else -2))

/-- Local `x_left` of `update_neighbors`. -/
def x_left (grid : Grid) (cell : Position) : Nat :=
  toU16 (if cell.x > 0 then cell.x - 1 else sizeMinusOne grid.length)

/-- Local `x_right` of `update_neighbors`. -/
def x_right (grid : Grid) (cell : Position) : Nat :=
  toU16 (if cell.x < sizeMinusOne grid.length then cell.x + 1 else 0)

/-- Local `y_above` of `update_neighbors`; `height` is `grid[0].size()`. -/
def y_above (height : Nat) (cell : Position) : Nat :=
  toU16 (if cell.y > 0 then cell.y - 1 else sizeMinusOne height)

/-- Local `y_below` of `update_neighbors`; `height` is `grid[0].size()`. -/
def y_below (height : Nat) (cell : Position) : Nat :=
  toU16 (if cell.y < sizeMinusOne height then cell.y + 1 else 0)

/-- Updates the neighbour counts of the eight neighbours of `cell`, wrapping around the
borders: plus one when the new state is alive, minus one when it is dead. -/
def update_neighbors (grid : Grid) (cell : Position) (new_cell_state : Cell_State) :
    Option Grid := do
  let xl := x_left grid cell
  let xr := x_right grid cell
  let col0 ← grid[0]?
  let ya := y_above col0.length cell
  let yb := y_below col0.length cell
  let grid ← modifyCell grid xl ya (bumpCount new_cell_state)
  let grid ← modifyCell grid cell.x ya (bumpCount new_cell_state)
  let grid ← modifyCell grid xr ya (bumpCount new_cell_state)
  let grid ← modifyCell grid xl cell.y (bumpCount new_cell_state)
  let grid ← modifyCell grid xr cell.y (bumpCount new_cell_state)
  let grid ← modifyCell grid xl yb (bumpCount new_cell_state)
  let grid ← modifyCell grid cell.x yb (bumpCount new_cell_state)
  modifyCell grid xr yb (bumpCount new_cell_state)

/-- The overload `update_grid(grid, Position, Cell_State)`: no check that the new state
differs from the current one. -/
def update_grid (grid : Grid) (cell : Position) (new_cell_state : Cell_State) :
    Option Grid := do
  let grid ← update_cell grid cell new_cell_state
  update_neighbors grid cell new_cell_state

/-- The overload `update_grid(grid, x, y, Cell_State)`: the arguments are converted to
`uint16_t`. -/
def update_grid_xy (grid : Grid) (x y : Nat) (new_cell_state : Cell_State) : Option Grid :=
  update_grid grid ⟨toU16 x, toU16 y⟩ new_cell_state

/-- Body of the inner loop of `next_generation` for the cell `(x, y)`: the decision reads
`grid`, the update goes to `next_grid`. -/
def next_generation_cell (grid next_grid : Grid) (x y : Nat) : Option Grid := do
  let c ← readCell grid x y
  if get_cell_state c = 0 ∧ get_neighbor_count c = 3 then
    update_grid_xy next_grid x y Cell_State.alive
  else if get_cell_state c = 1 ∧ (get_neighbor_count c < 2 ∨ get_neighbor_count c > 3) then
    update_grid_xy next_grid x y Cell_State.dead
  else
    pure next_grid

/-- Inner loop of `next_generation`: `for (x = 0; x < grid.size(); x++)`. -/
def next_generation_row (grid next_grid : Grid) (y : Nat) : Option Grid :=
  (List.range grid.length).foldlM (fun ng x => next_generation_cell grid ng x y) next_grid

/-- Computes the next generation: the copy `next_grid` is updated cell by cell from the
unchanged `grid`, for `y` in the outer loop and `x` in the inner loop, and returned. -/
def next_generation (grid : Grid) : Option Grid := do
  let col0 ← grid[0]?
  (List.range col0.length).foldlM (fun ng y => next_generation_row grid ng y) grid

/-! ## Specification vocabulary -/

/-- Content of cell `(x, y)`, with `0` outside the board. -/
def cellAt (g : Grid) (x y : Nat) : Nat :=
  (g.getD x []).getD y 0

/-- An `N` x `N` board of `uint8_t` values. -/
def IsGrid (N : Nat) (g : Grid) : Prop :=
  g.length = N ∧ ∀ col ∈ g, col.length = N ∧ ∀ v ∈ col, v < 256

/-- The eight toroidal neighbours of `(x, y)` on an `N` x `N` board: index `N` wraps to
`0` and index `-1` wraps to `N - 1`. -/
def toroidalNeighbours (N x y : Nat) : List (Nat × Nat) :=
  [((x + N - 1) % N, (y + N - 1) % N), (x, (y + N - 1) % N), ((x + 1) % N, (y + N - 1) % N),
   ((x + N - 1) % N, y), ((x + 1) % N, y),
   ((x + N - 1) % N, (y + 1) % N), (x, (y + 1) % N), ((x + 1) % N, (y + 1) % N)]

/-- Brute-force count of the live cells among the eight toroidal neighbours of `(x, y)`. -/
def liveNeighbours (N : Nat) (g : Grid) (x y : Nat) : Nat :=
  (toroidalNeighbours N x y).countP (fun p => get_cell_state (cellAt g p.1 p.2) = 1)

/-- The neighbour-count invariant: every stored count is the brute-force count. -/
def CountsConsistent (N : Nat) (g : Grid) : Prop :=
  ∀ x < N, ∀ y < N, get_neighbor_count (cellAt g x y) = liveNeighbours N g x y

instance (N : Nat) (g : Grid) : Decidable (IsGrid N g) := by
  unfold IsGrid; infer_instance

instance (N : Nat) (g : Grid) : Decidable (CountsConsistent N g) := by
  unfold CountsConsistent; infer_instance

/-! ## Wrapped indices -/

/-- Left/upper neighbour index on a ring of `N` indices, in the conditional form of the
program. -/
def wrapDec (N x : Nat) : Nat := if x > 0 then x - 1 else N - 1

/-- Right/lower neighbour index on a ring of `N` indices, in the conditional form of the
program. -/
def wrapInc (N x : Nat) : Nat := if x < N - 1 then x + 1 else 0

/-- The eight neighbour positions in the order in which `update_neighbors` visits them. -/
def wrappedNeighbours (N x y : Nat) : List (Nat × Nat) :=
  [(wrapDec N x, wrapDec N y), (x, wrapDec N y), (wrapInc N x, wrapDec N y),
   (wrapDec N x, y), (wrapInc N x, y),
   (wrapDec N x, wrapInc N y), (x, wrapInc N y), (wrapInc N x, wrapInc N y)]

/-- One-dimensional adjacency on the ring: `i` is `x` or one of its two ring neighbours. -/
def Adj (N x i : Nat) : Prop := i = wrapDec N x ∨ i = x ∨ i = wrapInc N x

instance (N x i : Nat) : Decidable (Adj N x i) := by
  unfold Adj; infer_instance

/-! ## What one `update_grid` call does to every cell -/

/-- Effect of `update_grid` on the stored byte of cell `(i, j)` when cell `(x, y)` is set
to `s` on an `N` x `N` board. -/
def updatedByte (N x y : Nat) (s : Cell_State) (i j v : Nat) : Nat :=
  if i = x ∧ j = y then cellBits s v
  else if (i, j) ∈ wrappedNeighbours N x y then bumpCount s v
  else v

/-! ## Bytes under the two kinds of update -/

/-- Underlying value of the enum `Cell_State` (`dead = 0`, `alive = 1`). -/
def Cell_State.toNat : Cell_State → Nat
  | Cell_State.dead => 0
  | Cell_State.alive => 1

/-! ## Sequences of `update_grid` calls -/

/-- Runs a sequence of `update_grid` calls from left to right. -/
def applyUpdates (g : Grid) : List (Position × Cell_State) → Option Grid
  | [] => some g
  | (p, s) :: rest => (update_grid g p s).bind fun g' => applyUpdates g' rest

/-- Every call of the sequence is on a cell of the `N` x `N` board and sets it to the
state opposite to the one it has when the call is made. -/
def ChangesState (N : Nat) (g : Grid) : List (Position × Cell_State) → Prop
  | [] => True
  | (p, s) :: rest =>
    p.x < N ∧ p.y < N ∧ get_cell_state (cellAt g p.x p.y) ≠ s.toNat ∧
      match update_grid g p s with
      | some g' => ChangesState N g' rest
      | none => True

/-- Decision procedure for `ChangesState`, by recursion on the sequence. -/
def decideChangesState (N : Nat) :
    (calls : List (Position × Cell_State)) → (g : Grid) → Decidable (ChangesState N g calls)
  | [], _ => isTrue trivial
  | (p, s) :: rest, g =>
    match h : update_grid g p s with
    | some g' =>
      have := decideChangesState N rest g'
      decidable_of_iff (p.x < N ∧ p.y < N ∧ get_cell_state (cellAt g p.x p.y) ≠ s.toNat ∧
        ChangesState N g' rest) (by simp [ChangesState, h])
    | none =>
      decidable_of_iff (p.x < N ∧ p.y < N ∧ get_cell_state (cellAt g p.x p.y) ≠ s.toNat)
        (by simp [ChangesState, h])

instance (N : Nat) (g : Grid) (calls : List (Position × Cell_State)) :
    Decidable (ChangesState N g calls) :=
  decideChangesState N calls g

/-! ## One generation -/

/-- The decision `next_generation` takes for a cell whose stored byte is `c`: the new
state to write, or `none` when the cell is left alone. -/
def decision (c : Nat) : Option Cell_State :=
  if get_cell_state c = 0 ∧ get_neighbor_count c = 3 then some Cell_State.alive
  else if get_cell_state c = 1 ∧ (get_neighbor_count c < 2 ∨ get_neighbor_count c > 3) then
    some Cell_State.dead
  else none

/-- State bit of a cell after the generation, from its stored byte before. -/
def nextState (c : Nat) : Nat :=
  match decision c with
  | some s => s.toNat
  | none => get_cell_state c

/-- The cells of a board of width `W` and height `H` in the order in which
`next_generation` visits them: `y` in the outer loop, `x` in the inner loop. -/
def visitOrder (W H : Nat) : List (Nat × Nat) :=
  (List.range H).flatMap fun y => (List.range W).map fun x => (x, y)

/-- The loop of `next_generation` run over an arbitrary list of cells. -/
def next_generation_in_order (order : List (Nat × Nat)) (grid : Grid) : Option Grid :=
  order.foldlM (fun ng p => next_generation_cell grid ng p.1 p.2) grid

/-! ## Wrap-around at the corner -/

/-- The eight cells named by the wrap-around property for the corner `(0, 0)`. -/
def cornerNeighbours (N : Nat) : List (Nat × Nat) :=
  [(N - 1, N - 1), (N - 1, 0), (N - 1, 1), (0, N - 1), (0, 1), (1, N - 1), (1, 0), (1, 1)]

/-! ## The dead board -/

/-- Applies `next_generation` `k` times. -/
def next_generations : Nat → Grid → Option Grid
  | 0, g => some g
  | k + 1, g => (next_generation g).bind (next_generations k)

/-! ## Boards whose live cells form a rectangle of index sets -/

/-- Indicator of a decidable proposition. -/
def ind (P : Prop) [Decidable P] : Nat := if P then 1 else 0

/-- Number of indices among `i - 1`, `i`, `i + 1` on the ring of `N` indices that satisfy
`A`. -/
def row3 (N : Nat) (A : Nat → Prop) [DecidablePred A] (i : Nat) : Nat :=
  ind (A (wrapDec N i)) + ind (A i) + ind (A (wrapInc N i))

/-! ## Seeding a pattern and stepping it -/

/-- Sets the listed cells alive, one `update_grid` call per cell, from left to right. -/
def setAlive (cells : List (Nat × Nat)) (g : Grid) : Option Grid :=
  applyUpdates g (cells.map fun p => (⟨p.1, p.2⟩, Cell_State.alive))

/-- Horizontal line of three cells centred at `(x, y)`, indices modulo `N`. -/
def horizontalLine (N x y : Nat) : List (Nat × Nat) :=
  [((x + N - 1) % N, y), (x, y), ((x + 1) % N, y)]

/-- Vertical line of three cells centred at `(x, y)`, indices modulo `N`. -/
def verticalLine (N x y : Nat) : List (Nat × Nat) :=
  [(x, (y + N - 1) % N), (x, y), (x, (y + 1) % N)]

/-- The 2 x 2 block with corner `(x, y)`, indices modulo `N`. -/
def block (N x y : Nat) : List (Nat × Nat) :=
  [(x, y), ((x + 1) % N, y), (x, (y + 1) % N), ((x + 1) % N, (y + 1) % N)]

/-! ## Concrete instances -/

/-- The consistent 3 x 3 board whose only live cell is `(0, 0)`. -/
def oneCellBoard : Grid := [[1, 2, 2], [2, 2, 2], [2, 2, 2]]

/-- A 3 x 3 board of arbitrary bytes (its counts are not consistent). -/
def arbitraryBoard : Grid := [[7, 255, 0], [1, 2, 3], [4, 5, 6]]

/-! # Theorems -/

/-! ## Bytes -/

theorem byte_or_one (v : Nat) (h : v < 256) : v ||| 1 = v / 2 * 2 + 1 := by
  interval_cases v <;> rfl

theorem byte_and_254 (v : Nat) (h : v < 256) : v &&& 254 = v / 2 * 2 := by
  interval_cases v <;> rfl

theorem get_cell_state_eq (v : Nat) : get_cell_state v = v % 2 := by
  simp [get_cell_state, Nat.and_one_is_mod]

theorem get_neighbor_count_eq (v : Nat) : get_neighbor_count v = v / 2 := by
  simp [get_neighbor_count, Nat.shiftRight_eq_div_pow]

theorem cellBits_alive (v : Nat) (h : v < 256) : cellBits Cell_State.alive v = v / 2 * 2 + 1 := by
  simp only [cellBits, if_true, byte_or_one v h, toU8]
  omega

theorem cellBits_dead (v : Nat) (h : v < 256) : cellBits Cell_State.dead v = v / 2 * 2 := by
  have : ¬ (Cell_State.dead = Cell_State.alive) := by decide
  simp only [cellBits, this, if_false, byte_and_254 v h, toU8]
  omega

theorem bumpCount_alive (v : Nat) : bumpCount Cell_State.alive v = (v + 2) % 256 := by
  simp only [bumpCount, if_true, toU8]
  omega

theorem bumpCount_dead (v : Nat) : bumpCount Cell_State.dead v = (v + 254) % 256 := by
  have : ¬ (Cell_State.dead = Cell_State.alive) := by decide
  simp only [bumpCount, this, if_false, toU8]
  omega

theorem cellBits_lt (s : Cell_State) (v : Nat) (h : v < 256) : cellBits s v < 256 := by
  cases s
  · rw [cellBits_dead v h]; omega
  · rw [cellBits_alive v h]; omega

theorem bumpCount_lt (s : Cell_State) (v : Nat) : bumpCount s v < 256 := by
  cases s
  · rw [bumpCount_dead]; omega
  · rw [bumpCount_alive]; omega

/-! ## Checked access on an `N` x `N` board -/

theorem cellAt_eq_of_getElem? {g : Grid} {x y : Nat} {col : List Nat} {v : Nat}
    (h1 : g[x]? = some col) (h2 : col[y]? = some v) : cellAt g x y = v := by
  simp [cellAt, List.getD_eq_getElem?_getD, h1, h2]

theorem IsGrid.col {N : Nat} {g : Grid} (hg : IsGrid N g) {x : Nat} (hx : x < N) :
    ∃ col, g[x]? = some col ∧ col.length = N ∧ ∀ v ∈ col, v < 256 := by
  have hx2 : x < g.length := by rw [hg.1]; exact hx
  refine ⟨g[x], List.getElem?_eq_getElem hx2, ?_⟩
  exact hg.2 _ (List.getElem_mem hx2)

theorem IsGrid.read {N : Nat} {g : Grid} (hg : IsGrid N g) {x y : Nat} (hx : x < N)
    (hy : y < N) : readCell g x y = some (cellAt g x y) ∧ cellAt g x y < 256 := by
  obtain ⟨col, h1, h2, h3⟩ := hg.col hx
  have hy2 : y < col.length := by rw [h2]; exact hy
  have h4 : col[y]? = some col[y] := List.getElem?_eq_getElem hy2
  rw [cellAt_eq_of_getElem? h1 h4]
  refine ⟨?_, h3 _ (List.getElem_mem hy2)⟩
  simp [readCell, h1, h4]

theorem IsGrid.cellAt_lt {N : Nat} {g : Grid} (hg : IsGrid N g) (x y : Nat) :
    cellAt g x y < 256 := by
  unfold cellAt
  rw [List.getD_eq_getElem?_getD, List.getD_eq_getElem?_getD]
  cases h1 : g[x]? with
  | none => simp
  | some col =>
    cases h2 : col[y]? with
    | none => simp [h2]
    | some v =>
      have hc : col ∈ g := List.getElem?_mem h1
      have hv : v ∈ col := List.getElem?_mem h2
      simpa [h2] using (hg.2 col hc).2 v hv

theorem modifyCell_spec {N : Nat} {g : Grid} (hg : IsGrid N g) {x y : Nat} (hx : x < N)
    (hy : y < N) (f : Nat → Nat) (hf : ∀ v, v < 256 → f v < 256) :
    ∃ g', modifyCell g x y f = some g' ∧ IsGrid N g' ∧
      ∀ i j, cellAt g' i j = if i = x ∧ j = y then f (cellAt g i j) else cellAt g i j := by
  obtain ⟨col, h1, h2, h3⟩ := hg.col hx
  have hx2 : x < g.length := by rw [hg.1]; exact hx
  have hy2 : y < col.length := by rw [h2]; exact hy
  have h4 : col[y]? = some col[y] := List.getElem?_eq_getElem hy2
  refine ⟨g.set x (col.set y (f col[y])), ?_, ?_, ?_⟩
  · simp [modifyCell, h1, h4]
  · refine ⟨by rw [List.length_set]; exact hg.1, ?_⟩
    intro c hc
    rcases List.mem_or_eq_of_mem_set hc with hc | hc
    · exact hg.2 c hc
    · subst hc
      refine ⟨by rw [List.length_set]; exact h2, ?_⟩
      intro v hv
      rcases List.mem_or_eq_of_mem_set hv with hv | hv
      · exact h3 v hv
      · subst hv
        exact hf _ (h3 _ (List.getElem_mem hy2))
  · intro i j
    unfold cellAt
    simp only [List.getD_eq_getElem?_getD, List.getElem?_set]
    by_cases hi : x = i
    · subst hi
      by_cases hj : y = j
      · subst hj
        simp [hx2, hy2, h1, h4]
      · have hj2 : ¬ (j = y) := fun h => hj h.symm
        simp [hx2, hj, hj2, h1]
    · have hi2 : ¬ (i = x) := fun h => hi h.symm
      simp [hi, hi2]

/-! ## Wrapped indices -/

theorem mod_dec_eq (N x : Nat) (hx : x < N) : (x + N - 1) % N = wrapDec N x := by
  unfold wrapDec
  split_ifs with h
  · have : x + N - 1 = (x - 1) + N := by omega
    rw [this, Nat.add_mod_right, Nat.mod_eq_of_lt (by omega)]
  · have : x + N - 1 = N - 1 := by omega
    rw [this, Nat.mod_eq_of_lt (by omega)]

theorem mod_inc_eq (N x : Nat) (hx : x < N) : (x + 1) % N = wrapInc N x := by
  unfold wrapInc
  split_ifs with h
  · rw [Nat.mod_eq_of_lt (by omega)]
  · have : x + 1 = N := by omega
    rw [this, Nat.mod_self]

theorem wrapDec_lt (N x : Nat) (hx : x < N) : wrapDec N x < N := by
  unfold wrapDec; split_ifs <;> omega

theorem wrapInc_lt (N x : Nat) (hx : x < N) : wrapInc N x < N := by
  unfold wrapInc; split_ifs <;> omega

theorem sizeMinusOne_eq (n : Nat) (h1 : 1 ≤ n) (h2 : n ≤ 200) : sizeMinusOne n = n - 1 := by
  unfold sizeMinusOne
  omega

theorem x_left_eq {N : Nat} {g : Grid} (hg : g.length = N) (h1 : 1 ≤ N) (h2 : N ≤ 200)
    (x y : Nat) (hx : x < N) : x_left g ⟨x, y⟩ = wrapDec N x := by
  simp only [x_left, hg, sizeMinusOne_eq N h1 h2, toU16, wrapDec]
  split_ifs <;> omega

theorem x_right_eq {N : Nat} {g : Grid} (hg : g.length = N) (h1 : 1 ≤ N) (h2 : N ≤ 200)
    (x y : Nat) (hx : x < N) : x_right g ⟨x, y⟩ = wrapInc N x := by
  simp only [x_right, hg, sizeMinusOne_eq N h1 h2, toU16, wrapInc]
  split_ifs <;> omega

theorem y_above_eq (N : Nat) (h1 : 1 ≤ N) (h2 : N ≤ 200)
    (x y : Nat) (hy : y < N) : y_above N ⟨x, y⟩ = wrapDec N y := by
  simp only [y_above, sizeMinusOne_eq N h1 h2, toU16, wrapDec]
  split_ifs <;> omega

theorem y_below_eq (N : Nat) (h1 : 1 ≤ N) (h2 : N ≤ 200)
    (x y : Nat) (hy : y < N) : y_below N ⟨x, y⟩ = wrapInc N y := by
  simp only [y_below, sizeMinusOne_eq N h1 h2, toU16, wrapInc]
  split_ifs <;> omega

theorem toroidalNeighbours_eq (N x y : Nat) (hx : x < N) (hy : y < N) :
    toroidalNeighbours N x y = wrappedNeighbours N x y := by
  simp only [toroidalNeighbours, wrappedNeighbours, mod_dec_eq N x hx, mod_dec_eq N y hy,
    mod_inc_eq N x hx, mod_inc_eq N y hy]

theorem Adj.symm {N x i : Nat} (hN : 3 ≤ N) (hx : x < N) (h : Adj N x i) :
    Adj N i x := by
  unfold Adj wrapDec wrapInc at *
  split_ifs at * <;> omega

theorem mem_wrappedNeighbours (N x y i j : Nat) :
    (i, j) ∈ wrappedNeighbours N x y ↔
      (i = wrapDec N x ∧ j = wrapDec N y) ∨ (i = x ∧ j = wrapDec N y) ∨
      (i = wrapInc N x ∧ j = wrapDec N y) ∨ (i = wrapDec N x ∧ j = y) ∨
      (i = wrapInc N x ∧ j = y) ∨ (i = wrapDec N x ∧ j = wrapInc N y) ∨
      (i = x ∧ j = wrapInc N y) ∨ (i = wrapInc N x ∧ j = wrapInc N y) := by
  simp [wrappedNeighbours]

theorem wrap_ne (N x : Nat) (hN : 3 ≤ N) (hx : x < N) :
    wrapDec N x ≠ x ∧ wrapInc N x ≠ x ∧ wrapDec N x ≠ wrapInc N x := by
  unfold wrapDec wrapInc
  split_ifs <;> omega

theorem mem_wrappedNeighbours_iff (N x y i j : Nat) (hN : 3 ≤ N) (hx : x < N) (hy : y < N) :
    (i, j) ∈ wrappedNeighbours N x y ↔ Adj N x i ∧ Adj N y j ∧ ¬ (i = x ∧ j = y) := by
  rw [mem_wrappedNeighbours]
  obtain ⟨a1, a2, a3⟩ := wrap_ne N x hN hx
  obtain ⟨b1, b2, b3⟩ := wrap_ne N y hN hy
  unfold Adj
  constructor
  · intro h
    rcases h with h | h | h | h | h | h | h | h <;> obtain ⟨rfl, rfl⟩ := h <;> simp_all
  · rintro ⟨h1 | h1 | h1, h2 | h2 | h2, h3⟩ <;> simp_all

theorem wrappedNeighbours_nodup (N x y : Nat) (hN : 3 ≤ N) (hx : x < N) (hy : y < N) :
    (wrappedNeighbours N x y).Nodup := by
  obtain ⟨a1, a2, a3⟩ := wrap_ne N x hN hx
  obtain ⟨b1, b2, b3⟩ := wrap_ne N y hN hy
  simp only [wrappedNeighbours, List.nodup_cons, List.mem_cons, List.mem_singleton,
    Prod.mk.injEq, List.not_mem_nil, List.nodup_nil, and_true, true_and, or_false,
    not_false_eq_true]
  omega

theorem wrappedNeighbours_lt (N x y : Nat) (hx : x < N) (hy : y < N) :
    ∀ p ∈ wrappedNeighbours N x y, p.1 < N ∧ p.2 < N := by
  have a1 := wrapDec_lt N x hx
  have a2 := wrapInc_lt N x hx
  have b1 := wrapDec_lt N y hy
  have b2 := wrapInc_lt N y hy
  intro p hp
  obtain ⟨i, j⟩ := p
  rw [mem_wrappedNeighbours] at hp
  rcases hp with h | h | h | h | h | h | h | h <;> obtain ⟨rfl, rfl⟩ := h <;> exact ⟨by assumption, by assumption⟩

/-! ## What one `update_grid` call does to every cell -/

theorem foldlM_modifyCell_spec {N : Nat} (f : Nat → Nat) (hf : ∀ v, v < 256 → f v < 256) :
    ∀ (l : List (Nat × Nat)) (g : Grid), IsGrid N g → (∀ p ∈ l, p.1 < N ∧ p.2 < N) →
      l.Nodup →
      ∃ g', l.foldlM (fun acc p => modifyCell acc p.1 p.2 f) g = some g' ∧ IsGrid N g' ∧
        ∀ i j, cellAt g' i j = if (i, j) ∈ l then f (cellAt g i j) else cellAt g i j := by
  intro l
  induction l with
  | nil =>
    intro g hg _ _
    exact ⟨g, rfl, hg, fun i j => by simp⟩
  | cons p l ih =>
    intro g hg hl nd
    obtain ⟨hp1, hp2⟩ := hl p (List.mem_cons_self _ _)
    obtain ⟨g1, e1, hg1, c1⟩ := modifyCell_spec hg hp1 hp2 f hf
    obtain ⟨g2, e2, hg2, c2⟩ := ih g1 hg1 (fun q hq => hl q (List.mem_cons_of_mem _ hq))
      (List.nodup_cons.mp nd).2
    refine ⟨g2, ?_, hg2, ?_⟩
    · rw [List.foldlM_cons, e1]
      exact e2
    · intro i j
      rw [c2, c1]
      have hnot : p ∉ l := (List.nodup_cons.mp nd).1
      by_cases hm : (i, j) ∈ l
      · have hne : ¬ (i = p.1 ∧ j = p.2) := by
          rintro ⟨rfl, rfl⟩
          exact hnot hm
        simp [hm, hne]
      · by_cases he : i = p.1 ∧ j = p.2
        · obtain ⟨rfl, rfl⟩ := he
          simp [hm]
        · have hne : ¬ ((i, j) = p) := by
            rintro rfl
            exact he ⟨rfl, rfl⟩
          simp [hm, he, hne]

theorem update_neighbors_eq_foldlM {N : Nat} {g : Grid} (hg : IsGrid N g) (h1 : 3 ≤ N)
    (h2 : N ≤ 200) (x y : Nat) (hx : x < N) (hy : y < N) (s : Cell_State) :
    update_neighbors g ⟨x, y⟩ s =
      (wrappedNeighbours N x y).foldlM (fun acc p => modifyCell acc p.1 p.2 (bumpCount s)) g := by
  obtain ⟨col0, e0, l0, _⟩ := hg.col (show 0 < N by omega)
  simp only [update_neighbors, e0, l0, x_left_eq hg.1 (by omega) h2 x y hx,
    x_right_eq hg.1 (by omega) h2 x y hx, y_above_eq N (by omega) h2 x y hy,
    y_below_eq N (by omega) h2 x y hy, wrappedNeighbours, List.foldlM_cons, List.foldlM_nil,
    Option.bind_eq_bind, Option.some_bind, bind_assoc, bind_pure, Option.pure_def,
    Option.bind_some]

theorem update_grid_spec {N : Nat} {g : Grid} (hg : IsGrid N g) (h1 : 3 ≤ N) (h2 : N ≤ 200)
    (x y : Nat) (hx : x < N) (hy : y < N) (s : Cell_State) :
    ∃ g', update_grid g ⟨x, y⟩ s = some g' ∧ IsGrid N g' ∧
      ∀ i j, cellAt g' i j = updatedByte N x y s i j (cellAt g i j) := by
  obtain ⟨g1, e1, hg1, c1⟩ := modifyCell_spec hg hx hy (cellBits s) (cellBits_lt s)
  obtain ⟨g2, e2, hg2, c2⟩ := foldlM_modifyCell_spec (bumpCount s) (fun v _ => bumpCount_lt s v)
    (wrappedNeighbours N x y) g1 hg1 (wrappedNeighbours_lt N x y hx hy)
    (wrappedNeighbours_nodup N x y h1 hx hy)
  refine ⟨g2, ?_, hg2, ?_⟩
  · simp only [update_grid, update_cell, e1, Option.bind_eq_bind, Option.some_bind]
    rw [update_neighbors_eq_foldlM hg1 h1 h2 x y hx hy s]
    exact e2
  · intro i j
    rw [c2, c1]
    unfold updatedByte
    by_cases he : i = x ∧ j = y
    · obtain ⟨rfl, rfl⟩ := he
      have hnot : (i, j) ∉ wrappedNeighbours N i j := by
        rw [mem_wrappedNeighbours_iff N i j i j h1 hx hy]
        simp
      simp [hnot]
    · simp [he]

theorem update_grid_xy_eq (g : Grid) (x y : Nat) (hx : x < 65536) (hy : y < 65536)
    (s : Cell_State) : update_grid_xy g x y s = update_grid g ⟨x, y⟩ s := by
  simp [update_grid_xy, toU16, Nat.mod_eq_of_lt hx, Nat.mod_eq_of_lt hy]

/-! ## Bytes under the two kinds of update -/

theorem get_cell_state_cellBits (s : Cell_State) (v : Nat) (h : v < 256) :
    get_cell_state (cellBits s v) = s.toNat := by
  cases s
  · rw [cellBits_dead v h, get_cell_state_eq]; simp [Cell_State.toNat]
  · rw [cellBits_alive v h, get_cell_state_eq]; simp [Cell_State.toNat]; omega

theorem get_neighbor_count_cellBits (s : Cell_State) (v : Nat) (h : v < 256) :
    get_neighbor_count (cellBits s v) = get_neighbor_count v := by
  cases s
  · rw [cellBits_dead v h, get_neighbor_count_eq, get_neighbor_count_eq]; omega
  · rw [cellBits_alive v h, get_neighbor_count_eq, get_neighbor_count_eq]; omega

theorem get_cell_state_bumpCount (s : Cell_State) (v : Nat) :
    get_cell_state (bumpCount s v) = get_cell_state v := by
  cases s
  · rw [bumpCount_dead, get_cell_state_eq, get_cell_state_eq]; omega
  · rw [bumpCount_alive, get_cell_state_eq, get_cell_state_eq]; omega

theorem get_neighbor_count_bump_alive (v : Nat) (h : v < 254) :
    get_neighbor_count (bumpCount Cell_State.alive v) = get_neighbor_count v + 1 := by
  rw [bumpCount_alive, get_neighbor_count_eq, get_neighbor_count_eq]; omega

theorem get_neighbor_count_bump_dead (v : Nat) (h1 : 2 ≤ v) (h2 : v < 256) :
    get_neighbor_count (bumpCount Cell_State.dead v) + 1 = get_neighbor_count v := by
  rw [bumpCount_dead, get_neighbor_count_eq, get_neighbor_count_eq]; omega

theorem get_cell_state_updatedByte (N x y : Nat) (s : Cell_State) (i j v : Nat) (h : v < 256) :
    get_cell_state (updatedByte N x y s i j v) =
      if i = x ∧ j = y then s.toNat else get_cell_state v := by
  unfold updatedByte
  split_ifs
  · exact get_cell_state_cellBits s v h
  · exact get_cell_state_bumpCount s v
  · rfl

/-! ## Counting live neighbours -/

theorem countP_flip {α : Type} [DecidableEq α] (P Q : α → Bool) (p : α)
    (hpq : ∀ q, q ≠ p → P q = Q q) (hP : P p = false) (hQ : Q p = true) :
    ∀ l : List α, l.Nodup → l.countP Q = l.countP P + if p ∈ l then 1 else 0 := by
  intro l
  induction l with
  | nil => intro _; simp
  | cons a l ih =>
    intro nd
    obtain ⟨ha, nd2⟩ := List.nodup_cons.mp nd
    rw [List.countP_cons, List.countP_cons, ih nd2]
    by_cases hap : a = p
    · subst hap
      simp [ha, hP, hQ]
    · have hpa : ¬ (p = a) := fun h => hap h.symm
      simp [hpq a hap, List.mem_cons, hpa]
      omega

theorem liveNeighbours_le (N : Nat) (g : Grid) (x y : Nat) : liveNeighbours N g x y ≤ 8 := by
  unfold liveNeighbours
  exact le_trans (List.countP_le_length _) (by simp [toroidalNeighbours])

theorem wrappedNeighbours_symm (N x y i j : Nat) (hN : 3 ≤ N) (hx : x < N) (hy : y < N)
    (hi : i < N) (hj : j < N) :
    (x, y) ∈ wrappedNeighbours N i j ↔ (i, j) ∈ wrappedNeighbours N x y := by
  rw [mem_wrappedNeighbours_iff N i j x y hN hi hj, mem_wrappedNeighbours_iff N x y i j hN hx hy]
  constructor
  · rintro ⟨a, b, c⟩
    exact ⟨a.symm hN hi, b.symm hN hj, fun h => c ⟨h.1.symm, h.2.symm⟩⟩
  · rintro ⟨a, b, c⟩
    exact ⟨a.symm hN hx, b.symm hN hy, fun h => c ⟨h.1.symm, h.2.symm⟩⟩

/-- The neighbour-count invariant survives an `update_grid` call that really changes the
state of the cell. -/
theorem CountsConsistent.flip {N : Nat} {g g' : Grid} (hg : IsGrid N g)
    (hc : CountsConsistent N g) (h1 : 3 ≤ N) (x y : Nat) (hx : x < N) (hy : y < N)
    (s : Cell_State) (hflip : get_cell_state (cellAt g x y) ≠ s.toNat)
    (hcell : ∀ i j, cellAt g' i j = updatedByte N x y s i j (cellAt g i j)) :
    CountsConsistent N g' := by
  intro i hi j hj
  have hv := hg.cellAt_lt i j
  have hold := hc i hi j hj
  have hle := liveNeighbours_le N g i j
  have hst : ∀ a b, get_cell_state (cellAt g' a b) =
      if a = x ∧ b = y then s.toNat else get_cell_state (cellAt g a b) := by
    intro a b
    rw [hcell, get_cell_state_updatedByte N x y s a b _ (hg.cellAt_lt a b)]
  have nd := wrappedNeighbours_nodup N i j h1 hi hj
  have hsym := wrappedNeighbours_symm N x y i j h1 hx hy hi hj
  have hself : (i, j) ∉ wrappedNeighbours N i j := by
    rw [mem_wrappedNeighbours_iff N i j i j h1 hi hj]; simp
  have hxy := get_cell_state_eq (cellAt g x y)
  unfold liveNeighbours at *
  rw [toroidalNeighbours_eq N i j hi hj] at *
  rw [hcell i j]
  unfold updatedByte
  cases s
  · -- the cell dies: it was alive
    have hwas : get_cell_state (cellAt g x y) = 1 := by
      simp only [Cell_State.toNat] at hflip
      omega
    have key := countP_flip
      (fun p : Nat × Nat => decide (get_cell_state (cellAt g' p.1 p.2) = 1))
      (fun p : Nat × Nat => decide (get_cell_state (cellAt g p.1 p.2) = 1)) (x, y)
      (by
        intro q hq
        have : ¬ (q.1 = x ∧ q.2 = y) := fun h => hq (Prod.ext h.1 h.2)
        simp [hst, this])
      (by simp [hst, Cell_State.toNat]) (by simp [hwas]) _ nd
    by_cases he : i = x ∧ j = y
    · obtain ⟨rfl, rfl⟩ := he
      rw [if_pos ⟨rfl, rfl⟩, get_neighbor_count_cellBits _ _ hv, hold, key, if_neg hself]
      rfl
    · rw [if_neg he]
      by_cases hn : (i, j) ∈ wrappedNeighbours N x y
      · rw [if_pos hn]
        rw [if_pos (hsym.mpr hn)] at key
        have h2 : 2 ≤ cellAt g i j := by
          rw [get_neighbor_count_eq] at hold
          omega
        have := get_neighbor_count_bump_dead _ h2 hv
        omega
      · rw [if_neg hn]
        rw [if_neg (fun h => hn (hsym.mp h))] at key
        omega
  · -- the cell is born: it was dead
    have hwas : get_cell_state (cellAt g x y) = 0 := by
      simp only [Cell_State.toNat] at hflip
      omega
    have key := countP_flip
      (fun p : Nat × Nat => decide (get_cell_state (cellAt g p.1 p.2) = 1))
      (fun p : Nat × Nat => decide (get_cell_state (cellAt g' p.1 p.2) = 1)) (x, y)
      (by
        intro q hq
        have : ¬ (q.1 = x ∧ q.2 = y) := fun h => hq (Prod.ext h.1 h.2)
        simp [hst, this])
      (by simp [hwas]) (by simp [hst, Cell_State.toNat]) _ nd
    by_cases he : i = x ∧ j = y
    · obtain ⟨rfl, rfl⟩ := he
      rw [if_pos ⟨rfl, rfl⟩, get_neighbor_count_cellBits _ _ hv, hold, key, if_neg hself]
      rfl
    · rw [if_neg he]
      by_cases hn : (i, j) ∈ wrappedNeighbours N x y
      · rw [if_pos hn]
        rw [if_pos (hsym.mpr hn)] at key
        have h2 : cellAt g i j < 254 := by
          rw [get_neighbor_count_eq] at hold
          omega
        have := get_neighbor_count_bump_alive _ h2
        omega
      · rw [if_neg hn]
        rw [if_neg (fun h => hn (hsym.mp h))] at key
        omega

/-! ## The initial board -/

theorem cellAt_initialize_grid (N i j : Nat) : cellAt (initialize_grid N) i j = 0 := by
  unfold cellAt initialize_grid
  rw [List.getD_eq_getElem?_getD, List.getD_eq_getElem?_getD, List.getElem?_replicate]
  split_ifs
  · simp only [Option.getD_some, List.getElem?_replicate]
    split_ifs <;> rfl
  · rfl

theorem isGrid_initialize_grid (N : Nat) : IsGrid N (initialize_grid N) := by
  refine ⟨by simp [initialize_grid], ?_⟩
  intro col hc
  rw [initialize_grid, List.mem_replicate] at hc
  obtain ⟨_, rfl⟩ := hc
  refine ⟨by simp, ?_⟩
  intro v hv
  rw [List.mem_replicate] at hv
  omega

theorem liveNeighbours_of_dead (N : Nat) (g : Grid) (x y : Nat)
    (h : ∀ i j, get_cell_state (cellAt g i j) = 0) : liveNeighbours N g x y = 0 := by
  unfold liveNeighbours
  rw [List.countP_eq_zero]
  intro p _
  simp [h]

theorem countsConsistent_initialize_grid (N : Nat) : CountsConsistent N (initialize_grid N) := by
  intro x _ y _
  rw [liveNeighbours_of_dead N _ x y (fun i j => by rw [cellAt_initialize_grid]; rfl),
    cellAt_initialize_grid]
  rfl

/-! ## Sequences of `update_grid` calls -/

theorem update_grid_flip {N : Nat} {g : Grid} (hg : IsGrid N g) (hc : CountsConsistent N g)
    (h1 : 3 ≤ N) (h2 : N ≤ 200) (p : Position) (hx : p.x < N) (hy : p.y < N) (s : Cell_State)
    (hflip : get_cell_state (cellAt g p.x p.y) ≠ s.toNat) :
    ∃ g', update_grid g p s = some g' ∧ IsGrid N g' ∧ CountsConsistent N g' ∧
      ∀ i j, cellAt g' i j = updatedByte N p.x p.y s i j (cellAt g i j) := by
  obtain ⟨g', e, hg', hcell⟩ := update_grid_spec hg h1 h2 p.x p.y hx hy s
  exact ⟨g', e, hg', hc.flip hg h1 p.x p.y hx hy s hflip hcell, hcell⟩

theorem applyUpdates_consistent {N : Nat} (h1 : 3 ≤ N) (h2 : N ≤ 200) :
    ∀ (calls : List (Position × Cell_State)) (g : Grid), IsGrid N g → CountsConsistent N g →
      ChangesState N g calls →
      ∃ g', applyUpdates g calls = some g' ∧ IsGrid N g' ∧ CountsConsistent N g' := by
  intro calls
  induction calls with
  | nil => intro g hg hc _; exact ⟨g, rfl, hg, hc⟩
  | cons c rest ih =>
    intro g hg hc hv
    obtain ⟨p, s⟩ := c
    obtain ⟨hx, hy, hflip, hrest⟩ := hv
    obtain ⟨g1, e1, hg1, hc1, _⟩ := update_grid_flip hg hc h1 h2 p hx hy s hflip
    rw [e1] at hrest
    obtain ⟨g2, e2, hg2, hc2⟩ := ih g1 hg1 hc1 hrest
    exact ⟨g2, by simp [applyUpdates, e1, e2], hg2, hc2⟩

theorem ChangesState.take {N : Nat} :
    ∀ (calls : List (Position × Cell_State)) (g : Grid) (k : Nat),
      ChangesState N g calls → ChangesState N g (calls.take k) := by
  intro calls
  induction calls with
  | nil => intro g k h; simpa using h
  | cons c rest ih =>
    intro g k h
    cases k with
    | zero => exact trivial
    | succ k =>
      obtain ⟨p, s⟩ := c
      obtain ⟨hx, hy, hflip, hrest⟩ := h
      refine ⟨hx, hy, hflip, ?_⟩
      cases e : update_grid g p s with
      | none => trivial
      | some g1 =>
        rw [e] at hrest
        exact ih g1 k hrest

/-- Claim C1. On a board of side `3 ≤ N ≤ 200`, start from `initialize_grid N` and run any
finite sequence of `update_grid` calls on in-bounds cells, each of which sets its cell to
the state opposite to its current one. After every call (after the first `k` calls, for
every `k`) the run has produced an `N` x `N` board on which, for every cell, the stored
neighbour count equals the brute-force number of live cells among its eight toroidal
neighbours, and so lies in `[0, 8]`. -/
theorem C1_counts_consistent_after_every_update (N : Nat) (h1 : 3 ≤ N) (h2 : N ≤ 200)
    (calls : List (Position × Cell_State))
    (hcalls : ChangesState N (initialize_grid N) calls) (k : Nat) :
    ∃ g, applyUpdates (initialize_grid N) (calls.take k) = some g ∧ IsGrid N g ∧
      ∀ x < N, ∀ y < N,
        get_neighbor_count (cellAt g x y) = liveNeighbours N g x y ∧
        get_neighbor_count (cellAt g x y) ≤ 8 := by
  obtain ⟨g, e, hg, hc⟩ := applyUpdates_consistent h1 h2 (calls.take k) (initialize_grid N)
    (isGrid_initialize_grid N) (countsConsistent_initialize_grid N) (hcalls.take calls _ k)
  refine ⟨g, e, hg, ?_⟩
  intro x hx y hy
  have := hc x hx y hy
  exact ⟨this, by rw [this]; exact liveNeighbours_le N g x y⟩

/-- Witness for C1 on the 3 x 3 board: set `(0,0)` alive, set `(1,1)` alive, set `(0,0)`
dead; inspected after the first two calls. -/
theorem C1_counts_consistent_after_every_update_witness :
    3 ≤ 3 ∧ 3 ≤ 200 ∧
    ChangesState 3 (initialize_grid 3)
      [(⟨0, 0⟩, Cell_State.alive), (⟨1, 1⟩, Cell_State.alive), (⟨0, 0⟩, Cell_State.dead)] ∧
    ∃ g, applyUpdates (initialize_grid 3)
        (([(⟨0, 0⟩, Cell_State.alive), (⟨1, 1⟩, Cell_State.alive),
          (⟨0, 0⟩, Cell_State.dead)] : List (Position × Cell_State)).take 2) = some g ∧
      IsGrid 3 g ∧
      ∀ x < 3, ∀ y < 3,
        get_neighbor_count (cellAt g x y) = liveNeighbours 3 g x y ∧
        get_neighbor_count (cellAt g x y) ≤ 8 :=
  ⟨by decide, by decide, by decide,
    C1_counts_consistent_after_every_update 3 (by decide) (by decide) _ (by decide) 2⟩

/-! ## One generation -/

theorem decision_changes {c : Nat} {s : Cell_State} (h : decision c = some s) :
    get_cell_state c ≠ s.toNat := by
  unfold decision at h
  split_ifs at h with h1 h2
  · cases h; simp [Cell_State.toNat, h1.1]
  · cases h; simp [Cell_State.toNat, h2.1]

theorem nextState_eq_one_iff (c : Nat) :
    nextState c = 1 ↔
      (get_cell_state c = 0 ∧ get_neighbor_count c = 3) ∨
      (get_cell_state c = 1 ∧ (get_neighbor_count c = 2 ∨ get_neighbor_count c = 3)) := by
  have hb : get_cell_state c = 0 ∨ get_cell_state c = 1 := by
    rw [get_cell_state_eq]; omega
  unfold nextState decision
  split_ifs with h1 h2
  · show (1 : Nat) = 1 ↔ _
    omega
  · show (0 : Nat) = 1 ↔ _
    omega
  · show get_cell_state c = 1 ↔ _
    omega

theorem next_generation_cell_eq {N : Nat} {g : Grid} (hg : IsGrid N g) (h2 : N ≤ 200)
    (acc : Grid) (x y : Nat) (hx : x < N) (hy : y < N) :
    next_generation_cell g acc x y =
      match decision (cellAt g x y) with
      | some s => update_grid acc ⟨x, y⟩ s
      | none => some acc := by
  unfold next_generation_cell decision
  rw [(hg.read hx hy).1]
  simp only [Option.bind_eq_bind, Option.some_bind,
    update_grid_xy_eq _ x y (by omega) (by omega)]
  split_ifs <;> rfl

theorem foldlM_flatMap {α β γ : Type} (F : β → α → Option β) (r : γ → List α) :
    ∀ (l : List γ) (b : β),
      l.foldlM (fun acc c => (r c).foldlM F acc) b = (l.flatMap r).foldlM F b := by
  intro l
  induction l with
  | nil => intro b; rfl
  | cons c l ih =>
    intro b
    rw [List.foldlM_cons, List.flatMap_cons, List.foldlM_append]
    cases h : (r c).foldlM F b with
    | none => rfl
    | some b1 =>
      simp only [Option.bind_eq_bind, Option.some_bind]
      exact ih b1

theorem next_generation_eq_in_order {N : Nat} {g : Grid} (hg : IsGrid N g) (h1 : 1 ≤ N) :
    next_generation g = next_generation_in_order (visitOrder N N) g := by
  obtain ⟨col0, e0, l0, _⟩ := hg.col (show 0 < N by omega)
  unfold next_generation next_generation_in_order visitOrder
  simp only [e0, l0, Option.bind_eq_bind, Option.some_bind]
  rw [← foldlM_flatMap]
  congr 1
  funext ng y
  unfold next_generation_row
  rw [hg.1, List.foldlM_map]

theorem mem_visitOrder (W H : Nat) (p : Nat × Nat) :
    p ∈ visitOrder W H ↔ p.1 < W ∧ p.2 < H := by
  obtain ⟨i, j⟩ := p
  simp only [visitOrder, List.mem_flatMap, List.mem_map, List.mem_range, Prod.mk.injEq]
  constructor
  · rintro ⟨y, hy, x, hx, rfl, rfl⟩
    exact ⟨hx, hy⟩
  · rintro ⟨hx, hy⟩
    exact ⟨j, hy, i, hx, rfl, rfl⟩

theorem visitOrder_nodup (W H : Nat) : (visitOrder W H).Nodup := by
  unfold visitOrder
  rw [List.nodup_flatMap]
  constructor
  · intro y _
    exact (List.nodup_range W).map (fun a b h => by simpa using h)
  · refine (List.nodup_range H).imp ?_
    intro a b hab
    simp only [Function.onFun]
    intro p hp1 hp2
    simp only [List.mem_map, List.mem_range] at hp1 hp2
    obtain ⟨_, _, rfl⟩ := hp1
    obtain ⟨_, _, h⟩ := hp2
    exact hab (congrArg Prod.snd h).symm

/-- Running the loop of `next_generation` over distinct cells of a consistent board: the
copy stays consistent, visited cells get their new state, the others keep theirs. -/
theorem next_generation_loop {N : Nat} {g : Grid} (hg : IsGrid N g) (h1 : 3 ≤ N)
    (h2 : N ≤ 200) :
    ∀ (l : List (Nat × Nat)) (acc : Grid), IsGrid N acc → CountsConsistent N acc →
      (∀ p ∈ l, p.1 < N ∧ p.2 < N) → l.Nodup →
      (∀ p ∈ l, get_cell_state (cellAt acc p.1 p.2) = get_cell_state (cellAt g p.1 p.2)) →
      ∃ acc', l.foldlM (fun ng p => next_generation_cell g ng p.1 p.2) acc = some acc' ∧
        IsGrid N acc' ∧ CountsConsistent N acc' ∧
        ∀ i j, get_cell_state (cellAt acc' i j) =
          if (i, j) ∈ l then nextState (cellAt g i j) else get_cell_state (cellAt acc i j) := by
  intro l
  induction l with
  | nil =>
    intro acc ha hc _ _ _
    exact ⟨acc, rfl, ha, hc, fun i j => by simp⟩
  | cons p l ih =>
    intro acc ha hc hl nd hsame
    obtain ⟨x, y⟩ := p
    obtain ⟨hx, hy⟩ := hl (x, y) (List.mem_cons_self _ _)
    obtain ⟨hnot, nd2⟩ := List.nodup_cons.mp nd
    have hxy := hsame (x, y) (List.mem_cons_self _ _)
    simp only at hx hy hxy
    -- the step on `(x, y)`
    have step : ∃ a1, next_generation_cell g acc x y = some a1 ∧ IsGrid N a1 ∧
        CountsConsistent N a1 ∧ ∀ i j, get_cell_state (cellAt a1 i j) =
          if i = x ∧ j = y then nextState (cellAt g x y)
          else get_cell_state (cellAt acc i j) := by
      rw [next_generation_cell_eq hg h2 acc x y hx hy]
      cases hd : decision (cellAt g x y) with
      | none =>
        refine ⟨acc, rfl, ha, hc, ?_⟩
        intro i j
        split_ifs with he
        · obtain ⟨rfl, rfl⟩ := he
          rw [hxy]; simp [nextState, hd]
        · rfl
      | some s =>
        have hflip : get_cell_state (cellAt acc x y) ≠ s.toNat := by
          rw [hxy]; exact decision_changes hd
        obtain ⟨a1, e1, ha1, hc1, hcell⟩ :=
          update_grid_flip ha hc h1 h2 ⟨x, y⟩ hx hy s hflip
        refine ⟨a1, e1, ha1, hc1, ?_⟩
        intro i j
        rw [hcell, get_cell_state_updatedByte N x y s i j _ (ha.cellAt_lt i j)]
        simp [nextState, hd]
    obtain ⟨a1, e1, ha1, hc1, hst1⟩ := step
    have hsame1 : ∀ q ∈ l,
        get_cell_state (cellAt a1 q.1 q.2) = get_cell_state (cellAt g q.1 q.2) := by
      intro q hq
      rw [hst1]
      have hne : ¬ (q.1 = x ∧ q.2 = y) := by
        rintro ⟨h3, h4⟩
        exact hnot (by rw [← h3, ← h4]; exact hq)
      rw [if_neg hne]
      exact hsame q (List.mem_cons_of_mem _ hq)
    obtain ⟨a2, e2, ha2, hc2, hst2⟩ := ih a1 ha1 hc1
      (fun q hq => hl q (List.mem_cons_of_mem _ hq)) nd2 hsame1
    refine ⟨a2, ?_, ha2, hc2, ?_⟩
    · rw [List.foldlM_cons, e1]; exact e2
    · intro i j
      rw [hst2, hst1]
      by_cases hm : (i, j) ∈ l
      · simp [hm]
      · by_cases he : i = x ∧ j = y
        · obtain ⟨rfl, rfl⟩ := he
          simp [hm]
        · have hne : ¬ ((i, j) = (x, y)) := by
            intro h
            exact he ⟨congrArg Prod.fst h, congrArg Prod.snd h⟩
          simp [hm, he, hne]

/-- On a consistent `N` x `N` board `next_generation` returns a consistent `N` x `N` board
in which every cell has the state given by `nextState` of its byte before. -/
theorem next_generation_spec {N : Nat} {g : Grid} (hg : IsGrid N g)
    (hc : CountsConsistent N g) (h1 : 3 ≤ N) (h2 : N ≤ 200) :
    ∃ g', next_generation g = some g' ∧ IsGrid N g' ∧ CountsConsistent N g' ∧
      ∀ x < N, ∀ y < N, get_cell_state (cellAt g' x y) = nextState (cellAt g x y) := by
  obtain ⟨g', e, hg', hc', hst⟩ := next_generation_loop hg h1 h2 (visitOrder N N) g hg hc
    (fun p hp => (mem_visitOrder N N p).mp hp) (visitOrder_nodup N N) (fun _ _ => rfl)
  refine ⟨g', ?_, hg', hc', ?_⟩
  · rw [next_generation_eq_in_order hg (by omega)]
    exact e
  · intro x hx y hy
    rw [hst, if_pos ((mem_visitOrder N N (x, y)).mpr ⟨hx, hy⟩)]

/-- Claim C2. On an `N` x `N` board, `3 ≤ N ≤ 200`, that satisfies the neighbour-count
invariant, `next_generation` returns a board in which a cell `(x, y)` is alive if and only
if, in the input board, it was dead with exactly 3 live toroidal neighbours or alive with
exactly 2 or 3 live toroidal neighbours (B3/S23), the neighbours being counted by brute
force on the input board. -/
theorem C2_next_generation_is_B3S23 (N : Nat) (h1 : 3 ≤ N) (h2 : N ≤ 200) (g : Grid)
    (hg : IsGrid N g) (hc : CountsConsistent N g) :
    ∃ g', next_generation g = some g' ∧
      ∀ x < N, ∀ y < N,
        (get_cell_state (cellAt g' x y) = 1 ↔
          (get_cell_state (cellAt g x y) = 0 ∧ liveNeighbours N g x y = 3) ∨
          (get_cell_state (cellAt g x y) = 1 ∧
            (liveNeighbours N g x y = 2 ∨ liveNeighbours N g x y = 3))) := by
  obtain ⟨g', e, _, _, hst⟩ := next_generation_spec hg hc h1 h2
  refine ⟨g', e, ?_⟩
  intro x hx y hy
  rw [hst x hx y hy, nextState_eq_one_iff, hc x hx y hy]

/-- Claim C3. `next_generation` preserves the neighbour-count invariant: from an `N` x `N`
board, `3 ≤ N ≤ 200`, whose stored neighbour counts all equal the brute-force numbers of
live toroidal neighbours, it returns an `N` x `N` board with the same property. -/
theorem C3_next_generation_preserves_counts (N : Nat) (h1 : 3 ≤ N) (h2 : N ≤ 200) (g : Grid)
    (hg : IsGrid N g) (hc : CountsConsistent N g) :
    ∃ g', next_generation g = some g' ∧ IsGrid N g' ∧
      ∀ x < N, ∀ y < N, get_neighbor_count (cellAt g' x y) = liveNeighbours N g' x y := by
  obtain ⟨g', e, hg', hc', _⟩ := next_generation_spec hg hc h1 h2
  exact ⟨g', e, hg', hc'⟩

/-! ## Wrap-around at the corner -/

theorem mem_cornerNeighbours (N : Nat) (h1 : 3 ≤ N) (p : Nat × Nat) :
    p ∈ cornerNeighbours N ↔ p ∈ wrappedNeighbours N 0 0 := by
  have a : wrapDec N 0 = N - 1 := by simp [wrapDec]
  have b : wrapInc N 0 = 1 := by
    unfold wrapInc
    rw [if_pos (by omega)]
  obtain ⟨i, j⟩ := p
  rw [mem_wrappedNeighbours, a, b]
  simp only [cornerNeighbours, List.mem_cons, List.mem_singleton, Prod.mk.injEq,
    List.not_mem_nil, or_false]
  constructor
  · rintro (h | h | h | h | h | h | h | h) <;> simp [h]
  · rintro (h | h | h | h | h | h | h | h) <;> simp [h]

theorem cornerNeighbours_nodup (N : Nat) (h1 : 3 ≤ N) : (cornerNeighbours N).Nodup := by
  simp only [cornerNeighbours, List.nodup_cons, List.mem_cons, List.mem_singleton,
    Prod.mk.injEq, List.not_mem_nil, List.nodup_nil, and_true, true_and, or_false,
    not_false_eq_true]
  omega

/-- Claim C4. On an `N` x `N` board, `3 ≤ N ≤ 200`, that satisfies the neighbour-count
invariant and has `(0, 0)` dead, `update_grid(grid, (0,0), alive)` makes `(0, 0)` alive,
raises the stored neighbour count by exactly 1 at each of the eight pairwise distinct cells
`(N-1,N-1)`, `(N-1,0)`, `(N-1,1)`, `(0,N-1)`, `(0,1)`, `(1,N-1)`, `(1,0)`, `(1,1)`, leaves
the stored byte of every other cell unchanged, and leaves the neighbour count of `(0, 0)`
unchanged. -/
theorem C4_corner_update_wraps_around (N : Nat) (h1 : 3 ≤ N) (h2 : N ≤ 200) (g : Grid)
    (hg : IsGrid N g) (hc : CountsConsistent N g)
    (_hdead : get_cell_state (cellAt g 0 0) = 0) :
    ∃ g', update_grid g ⟨0, 0⟩ Cell_State.alive = some g' ∧
      get_cell_state (cellAt g' 0 0) = 1 ∧
      (cornerNeighbours N).Nodup ∧
      (∀ p ∈ cornerNeighbours N,
        get_neighbor_count (cellAt g' p.1 p.2) = get_neighbor_count (cellAt g p.1 p.2) + 1) ∧
      (∀ i j, (i, j) ∉ cornerNeighbours N → (i, j) ≠ (0, 0) → cellAt g' i j = cellAt g i j) ∧
      get_neighbor_count (cellAt g' 0 0) = get_neighbor_count (cellAt g 0 0) := by
  obtain ⟨g', e, _, hcell⟩ :=
    update_grid_spec hg h1 h2 0 0 (by omega) (by omega) Cell_State.alive
  refine ⟨g', e, ?_, cornerNeighbours_nodup N h1, ?_, ?_, ?_⟩
  · rw [hcell, get_cell_state_updatedByte _ _ _ _ _ _ _ (hg.cellAt_lt 0 0)]
    simp [Cell_State.toNat]
  · intro p hp
    obtain ⟨i, j⟩ := p
    have hm := (mem_cornerNeighbours N h1 (i, j)).mp hp
    have hb := wrappedNeighbours_lt N 0 0 (by omega) (by omega) (i, j) hm
    have hne : ¬ (i = 0 ∧ j = 0) := by
      have := (mem_wrappedNeighbours_iff N 0 0 i j h1 (by omega) (by omega)).mp hm
      exact this.2.2
    have hcount := hc i hb.1 j hb.2
    have hle := liveNeighbours_le N g i j
    have hlt : cellAt g i j < 254 := by
      rw [get_neighbor_count_eq] at hcount
      omega
    simp only [hcell, updatedByte, if_neg hne, if_pos hm]
    exact get_neighbor_count_bump_alive _ hlt
  · intro i j hnot hne
    have hne2 : ¬ (i = 0 ∧ j = 0) := fun h => hne (by rw [h.1, h.2])
    have hm : (i, j) ∉ wrappedNeighbours N 0 0 :=
      fun h => hnot ((mem_cornerNeighbours N h1 (i, j)).mpr h)
    simp only [hcell, updatedByte, if_neg hne2, if_neg hm]
  · simp only [hcell, updatedByte, and_self, if_true]
    exact get_neighbor_count_cellBits _ _ (hg.cellAt_lt 0 0)

/-! ## Calling `update_grid` with the state the cell already has -/

theorem get_neighbor_count_bump_dead_wrap (v : Nat) :
    get_neighbor_count (bumpCount Cell_State.dead v) = (get_neighbor_count v + 127) % 128 := by
  rw [bumpCount_dead, get_neighbor_count_eq, get_neighbor_count_eq]; omega

/-- Claim C5 (amended). On an `N` x `N` board, `3 ≤ N ≤ 200`, that satisfies the
neighbour-count invariant, calling `update_grid` on an in-bounds cell with the state the
cell already has leaves the liveness of every cell unchanged and changes the stored count
of each of the eight toroidal neighbours of the cell: plus one when the state is alive;
when the state is dead, minus one if the neighbour's count is at least 1, and to 127 (the
8-bit wrap-around of `0 - 1`) if the neighbour's count is 0. -/
theorem C5_same_state_update_drifts (N : Nat) (h1 : 3 ≤ N) (h2 : N ≤ 200) (g : Grid)
    (hg : IsGrid N g) (hc : CountsConsistent N g) (x y : Nat) (hx : x < N) (hy : y < N)
    (s : Cell_State) (hsame : get_cell_state (cellAt g x y) = s.toNat) :
    ∃ g', update_grid g ⟨x, y⟩ s = some g' ∧
      (∀ i j, get_cell_state (cellAt g' i j) = get_cell_state (cellAt g i j)) ∧
      ∀ p ∈ toroidalNeighbours N x y,
        (s = Cell_State.alive →
          get_neighbor_count (cellAt g' p.1 p.2) = get_neighbor_count (cellAt g p.1 p.2) + 1) ∧
        (s = Cell_State.dead → 1 ≤ get_neighbor_count (cellAt g p.1 p.2) →
          get_neighbor_count (cellAt g' p.1 p.2) + 1 = get_neighbor_count (cellAt g p.1 p.2)) ∧
        (s = Cell_State.dead → get_neighbor_count (cellAt g p.1 p.2) = 0 →
          get_neighbor_count (cellAt g' p.1 p.2) = 127) := by
  obtain ⟨g', e, _, hcell⟩ := update_grid_spec hg h1 h2 x y hx hy s
  refine ⟨g', e, ?_, ?_⟩
  · intro i j
    rw [hcell, get_cell_state_updatedByte _ _ _ _ _ _ _ (hg.cellAt_lt i j)]
    split_ifs with he
    · rw [he.1, he.2, hsame]
    · rfl
  · intro p hp
    obtain ⟨i, j⟩ := p
    rw [toroidalNeighbours_eq N x y hx hy] at hp
    have hb := wrappedNeighbours_lt N x y hx hy (i, j) hp
    have hne : ¬ (i = x ∧ j = y) :=
      ((mem_wrappedNeighbours_iff N x y i j h1 hx hy).mp hp).2.2
    have hcount := hc i hb.1 j hb.2
    have hle := liveNeighbours_le N g i j
    simp only [hcell, updatedByte, if_neg hne, if_pos hp]
    refine ⟨?_, ?_, ?_⟩
    · rintro rfl
      have hlt : cellAt g i j < 254 := by
        rw [get_neighbor_count_eq] at hcount
        omega
      exact get_neighbor_count_bump_alive _ hlt
    · rintro rfl hpos
      rw [get_neighbor_count_bump_dead_wrap _]
      omega
    · rintro rfl hzero
      rw [get_neighbor_count_bump_dead_wrap _, hzero]

/-- Counterexample to C5 as stated: on the all-dead 3 x 3 board (which satisfies the
invariant) `update_grid(grid, (0,0), dead)` is a call with the state the cell already has,
and it takes the stored count of the toroidal neighbour `(1, 1)` from 0 to 127, which is
not a change by minus one. -/
theorem C5_same_state_update_counterexample :
    IsGrid 3 (initialize_grid 3) ∧ CountsConsistent 3 (initialize_grid 3) ∧
    get_cell_state (cellAt (initialize_grid 3) 0 0) = Cell_State.dead.toNat ∧
    (1, 1) ∈ toroidalNeighbours 3 0 0 ∧
    get_neighbor_count (cellAt (initialize_grid 3) 1 1) = 0 ∧
    ∃ g', update_grid (initialize_grid 3) ⟨0, 0⟩ Cell_State.dead = some g' ∧
      get_neighbor_count (cellAt g' 1 1) = 127 ∧
      ¬ (get_neighbor_count (cellAt g' 1 1) + 1 =
          get_neighbor_count (cellAt (initialize_grid 3) 1 1)) ∧
      ¬ (get_neighbor_count (cellAt g' 1 1) =
          get_neighbor_count (cellAt (initialize_grid 3) 1 1) - 1) := by
  refine ⟨by decide, by decide, by decide, by decide, by decide, ?_⟩
  exact ⟨[[0, 254, 254], [254, 254, 254], [254, 254, 254]], by decide, by decide, by decide,
    by decide⟩

/-! ## Index safety -/

theorem next_generation_cell_isGrid {N : Nat} {g : Grid} (hg : IsGrid N g) (h1 : 3 ≤ N)
    (h2 : N ≤ 200) (acc : Grid) (ha : IsGrid N acc) (x y : Nat) (hx : x < N) (hy : y < N) :
    ∃ acc', next_generation_cell g acc x y = some acc' ∧ IsGrid N acc' := by
  rw [next_generation_cell_eq hg h2 acc x y hx hy]
  cases decision (cellAt g x y) with
  | none => exact ⟨acc, rfl, ha⟩
  | some s =>
    obtain ⟨a1, e1, ha1, _⟩ := update_grid_spec ha h1 h2 x y hx hy s
    exact ⟨a1, e1, ha1⟩

theorem next_generation_loop_isGrid {N : Nat} {g : Grid} (hg : IsGrid N g) (h1 : 3 ≤ N)
    (h2 : N ≤ 200) :
    ∀ (l : List (Nat × Nat)) (acc : Grid), IsGrid N acc → (∀ p ∈ l, p.1 < N ∧ p.2 < N) →
      ∃ acc', l.foldlM (fun ng p => next_generation_cell g ng p.1 p.2) acc = some acc' ∧
        IsGrid N acc' := by
  intro l
  induction l with
  | nil => intro acc ha _; exact ⟨acc, rfl, ha⟩
  | cons p l ih =>
    intro acc ha hl
    obtain ⟨hx, hy⟩ := hl p (List.mem_cons_self _ _)
    obtain ⟨a1, e1, ha1⟩ := next_generation_cell_isGrid hg h1 h2 acc ha p.1 p.2 hx hy
    obtain ⟨a2, e2, ha2⟩ := ih a1 ha1 (fun q hq => hl q (List.mem_cons_of_mem _ hq))
    exact ⟨a2, by rw [List.foldlM_cons, e1]; exact e2, ha2⟩

/-- Claim C8. On any `N` x `N` board with `3 ≤ N ≤ 200` (so in particular for `N = 3` and
`N = 200`), for every in-bounds cell `(x, y)` and every new state: the indices `x_left`,
`x_right`, `y_above`, `y_below` computed by `update_neighbors` lie in `[0, N)`, every cell
visited by the loops of `next_generation` lies in `[0, N)` x `[0, N)`, and with checked
indexing both `update_grid` and `next_generation` return a board (again `N` x `N`) instead
of taking the out-of-bounds branch. -/
theorem C8_indices_in_bounds (N : Nat) (h1 : 3 ≤ N) (h2 : N ≤ 200) (g : Grid)
    (hg : IsGrid N g) (x y : Nat) (hx : x < N) (hy : y < N) (s : Cell_State) :
    x_left g ⟨x, y⟩ < N ∧ x_right g ⟨x, y⟩ < N ∧
    (∃ col0, g[0]? = some col0 ∧
      y_above col0.length ⟨x, y⟩ < N ∧ y_below col0.length ⟨x, y⟩ < N ∧
      ∀ p ∈ visitOrder g.length col0.length, p.1 < N ∧ p.2 < N) ∧
    (∃ g', update_grid g ⟨x, y⟩ s = some g' ∧ IsGrid N g') ∧
    (∃ g', next_generation g = some g' ∧ IsGrid N g') := by
  obtain ⟨col0, e0, l0, _⟩ := hg.col (show 0 < N by omega)
  refine ⟨?_, ?_, ⟨col0, e0, ?_, ?_, ?_⟩, ?_, ?_⟩
  · rw [x_left_eq hg.1 (by omega) h2 x y hx]; exact wrapDec_lt N x hx
  · rw [x_right_eq hg.1 (by omega) h2 x y hx]; exact wrapInc_lt N x hx
  · rw [l0, y_above_eq N (by omega) h2 x y hy]; exact wrapDec_lt N y hy
  · rw [l0, y_below_eq N (by omega) h2 x y hy]; exact wrapInc_lt N y hy
  · rw [l0, hg.1]
    exact fun p hp => (mem_visitOrder N N p).mp hp
  · obtain ⟨g', e, hg', _⟩ := update_grid_spec hg h1 h2 x y hx hy s
    exact ⟨g', e, hg'⟩
  · rw [next_generation_eq_in_order hg (by omega)]
    exact next_generation_loop_isGrid hg h1 h2 (visitOrder N N) g hg
      (fun p hp => (mem_visitOrder N N p).mp hp)

/-! ## The dead board -/

theorem next_generation_loop_noop {N : Nat} {g : Grid} (hg : IsGrid N g) (h2 : N ≤ 200) :
    ∀ (l : List (Nat × Nat)) (acc : Grid),
      (∀ p ∈ l, p.1 < N ∧ p.2 < N ∧ decision (cellAt g p.1 p.2) = none) →
      l.foldlM (fun ng p => next_generation_cell g ng p.1 p.2) acc = some acc := by
  intro l
  induction l with
  | nil => intro acc _; rfl
  | cons p l ih =>
    intro acc hl
    obtain ⟨hx, hy, hd⟩ := hl p (List.mem_cons_self _ _)
    rw [List.foldlM_cons, next_generation_cell_eq hg h2 acc p.1 p.2 hx hy, hd]
    exact ih acc (fun q hq => hl q (List.mem_cons_of_mem _ hq))

theorem next_generation_initialize_grid (N : Nat) (h1 : 3 ≤ N) (h2 : N ≤ 200) :
    next_generation (initialize_grid N) = some (initialize_grid N) := by
  rw [next_generation_eq_in_order (isGrid_initialize_grid N) (by omega)]
  refine next_generation_loop_noop (isGrid_initialize_grid N) h2 _ _ ?_
  intro p hp
  obtain ⟨hx, hy⟩ := (mem_visitOrder N N p).mp hp
  refine ⟨hx, hy, ?_⟩
  rw [cellAt_initialize_grid]
  decide

/-- Claim C9. For `3 ≤ N ≤ 200` and every `k`, applying `next_generation` `k` times to
`initialize_grid N` returns `initialize_grid N` itself, in which every cell is dead with
stored neighbour count 0. -/
theorem C9_dead_board_stays_dead (N : Nat) (h1 : 3 ≤ N) (h2 : N ≤ 200) (k : Nat) :
    next_generations k (initialize_grid N) = some (initialize_grid N) ∧
    ∀ x y, get_cell_state (cellAt (initialize_grid N) x y) = 0 ∧
      get_neighbor_count (cellAt (initialize_grid N) x y) = 0 := by
  constructor
  · induction k with
    | zero => rfl
    | succ k ih =>
      rw [next_generations, next_generation_initialize_grid N h1 h2]
      exact ih
  · intro x y
    rw [cellAt_initialize_grid]
    exact ⟨rfl, rfl⟩

/-! ## Updates of distinct cells commute -/

theorem IsGrid.ext {N : Nat} {g g' : Grid} (hg : IsGrid N g) (hg' : IsGrid N g')
    (h : ∀ i < N, ∀ j < N, cellAt g i j = cellAt g' i j) : g = g' := by
  apply List.ext_getElem?
  intro x
  by_cases hx : x < N
  · obtain ⟨c, e, l, _⟩ := hg.col hx
    obtain ⟨c', e', l', _⟩ := hg'.col hx
    rw [e, e']
    congr 1
    apply List.ext_getElem?
    intro y
    by_cases hy : y < N
    · have hy1 : y < c.length := by omega
      have hy2 : y < c'.length := by omega
      have a := cellAt_eq_of_getElem? e (List.getElem?_eq_getElem hy1)
      have b := cellAt_eq_of_getElem? e' (List.getElem?_eq_getElem hy2)
      rw [List.getElem?_eq_getElem hy1, List.getElem?_eq_getElem hy2, ← a, ← b, h x hx y hy]
    · rw [List.getElem?_eq_none (by omega), List.getElem?_eq_none (by omega)]
  · rw [List.getElem?_eq_none (by rw [hg.1]; omega),
      List.getElem?_eq_none (by rw [hg'.1]; omega)]

theorem bumpCount_comm (s t : Cell_State) (v : Nat) :
    bumpCount s (bumpCount t v) = bumpCount t (bumpCount s v) := by
  cases s <;> cases t <;> simp only [bumpCount_alive, bumpCount_dead] <;> omega

theorem cellBits_bumpCount_comm (s t : Cell_State) (v : Nat) (h : v < 256) :
    cellBits s (bumpCount t v) = bumpCount t (cellBits s v) := by
  have hb := bumpCount_lt t v
  cases s
  · rw [cellBits_dead _ hb, cellBits_dead _ h]
    cases t
    · rw [bumpCount_dead, bumpCount_dead]; omega
    · rw [bumpCount_alive, bumpCount_alive]; omega
  · rw [cellBits_alive _ hb, cellBits_alive _ h]
    cases t
    · rw [bumpCount_dead, bumpCount_dead]; omega
    · rw [bumpCount_alive, bumpCount_alive]; omega

theorem updatedByte_comm (N px py qx qy : Nat) (s t : Cell_State) (i j v : Nat)
    (h : v < 256) (hne : ¬ (px = qx ∧ py = qy)) :
    updatedByte N qx qy t i j (updatedByte N px py s i j v) =
      updatedByte N px py s i j (updatedByte N qx qy t i j v) := by
  unfold updatedByte
  by_cases hp : i = px ∧ j = py
  · have hq : ¬ (i = qx ∧ j = qy) := fun hq => hne ⟨hp.1.symm.trans hq.1, hp.2.symm.trans hq.2⟩
    simp only [if_pos hp, if_neg hq]
    split_ifs
    · exact (cellBits_bumpCount_comm s t v h).symm
    · rfl
  · simp only [if_neg hp]
    by_cases hq : i = qx ∧ j = qy
    · simp only [if_pos hq]
      split_ifs
      · exact cellBits_bumpCount_comm t s v h
      · rfl
    · simp only [if_neg hq]
      split_ifs
      · exact bumpCount_comm t s v
      · rfl
      · rfl
      · rfl

theorem update_grid_comm {N : Nat} {g : Grid} (hg : IsGrid N g) (h1 : 3 ≤ N) (h2 : N ≤ 200)
    (p q : Position) (hp : p.x < N ∧ p.y < N) (hq : q.x < N ∧ q.y < N) (hpq : p ≠ q)
    (s t : Cell_State) :
    ∃ g', ((update_grid g p s).bind fun g1 => update_grid g1 q t) = some g' ∧
      ((update_grid g q t).bind fun g1 => update_grid g1 p s) = some g' ∧ IsGrid N g' := by
  obtain ⟨a1, ea1, ha1, ca1⟩ := update_grid_spec hg h1 h2 p.x p.y hp.1 hp.2 s
  obtain ⟨a2, ea2, ha2, ca2⟩ := update_grid_spec ha1 h1 h2 q.x q.y hq.1 hq.2 t
  obtain ⟨b1, eb1, hb1, cb1⟩ := update_grid_spec hg h1 h2 q.x q.y hq.1 hq.2 t
  obtain ⟨b2, eb2, hb2, cb2⟩ := update_grid_spec hb1 h1 h2 p.x p.y hp.1 hp.2 s
  have hne : ¬ (p.x = q.x ∧ p.y = q.y) := by
    intro h
    apply hpq
    cases p; cases q
    simp only at h
    rw [h.1, h.2]
  have heq : a2 = b2 := by
    apply ha2.ext hb2
    intro i _ j _
    rw [ca2, ca1, cb2, cb1]
    exact updatedByte_comm N p.x p.y q.x q.y s t i j _ (hg.cellAt_lt i j) hne
  refine ⟨a2, ?_, ?_, ha2⟩
  · show (update_grid g ⟨p.x, p.y⟩ s).bind (fun g1 => update_grid g1 ⟨q.x, q.y⟩ t) = some a2
    rw [ea1]; exact ea2
  · show (update_grid g ⟨q.x, q.y⟩ t).bind (fun g1 => update_grid g1 ⟨p.x, p.y⟩ s) = some a2
    rw [eb1, heq]; exact eb2

theorem next_generation_cell_comm {N : Nat} {g : Grid} (hg : IsGrid N g) (h1 : 3 ≤ N)
    (h2 : N ≤ 200) (acc : Grid) (ha : IsGrid N acc) (a b : Nat × Nat)
    (hA : a.1 < N ∧ a.2 < N) (hB : b.1 < N ∧ b.2 < N) (hab : a ≠ b) :
    ∃ acc', ((next_generation_cell g acc a.1 a.2).bind fun g1 =>
        next_generation_cell g g1 b.1 b.2) = some acc' ∧
      ((next_generation_cell g acc b.1 b.2).bind fun g1 =>
        next_generation_cell g g1 a.1 a.2) = some acc' ∧ IsGrid N acc' := by
  simp only [next_generation_cell_eq hg h2 _ a.1 a.2 hA.1 hA.2,
    next_generation_cell_eq hg h2 _ b.1 b.2 hB.1 hB.2]
  cases decision (cellAt g a.1 a.2) with
  | none =>
    cases decision (cellAt g b.1 b.2) with
    | none => exact ⟨acc, rfl, rfl, ha⟩
    | some t =>
      obtain ⟨a1, e1, ha1, _⟩ := update_grid_spec ha h1 h2 b.1 b.2 hB.1 hB.2 t
      exact ⟨a1, by simp [e1], by simp [e1], ha1⟩
  | some s =>
    cases decision (cellAt g b.1 b.2) with
    | none =>
      obtain ⟨a1, e1, ha1, _⟩ := update_grid_spec ha h1 h2 a.1 a.2 hA.1 hA.2 s
      exact ⟨a1, by simp [e1], by simp [e1], ha1⟩
    | some t =>
      have hne : (⟨a.1, a.2⟩ : Position) ≠ ⟨b.1, b.2⟩ := by
        intro h
        apply hab
        injection h with h3 h4
        exact Prod.ext h3 h4
      exact update_grid_comm ha h1 h2 ⟨a.1, a.2⟩ ⟨b.1, b.2⟩ hA hB hne s t

theorem next_generation_loop_perm {N : Nat} {g : Grid} (hg : IsGrid N g) (h1 : 3 ≤ N)
    (h2 : N ≤ 200) {l₁ l₂ : List (Nat × Nat)} (hperm : l₁.Perm l₂) :
    (∀ p ∈ l₁, p.1 < N ∧ p.2 < N) → l₁.Nodup → ∀ acc : Grid, IsGrid N acc →
      l₁.foldlM (fun ng p => next_generation_cell g ng p.1 p.2) acc =
        l₂.foldlM (fun ng p => next_generation_cell g ng p.1 p.2) acc := by
  induction hperm with
  | nil => intro _ _ _ _; rfl
  | cons x _ ih =>
    intro hl nd acc ha
    obtain ⟨hx, hy⟩ := hl x (List.mem_cons_self _ _)
    obtain ⟨a1, e1, ha1⟩ := next_generation_cell_isGrid hg h1 h2 acc ha x.1 x.2 hx hy
    rw [List.foldlM_cons, List.foldlM_cons, e1]
    exact ih (fun q hq => hl q (List.mem_cons_of_mem _ hq)) (List.nodup_cons.mp nd).2 a1 ha1
  | swap x y l =>
    intro hl nd acc ha
    have hy := hl y (List.mem_cons_self _ _)
    have hx := hl x (List.mem_cons_of_mem _ (List.mem_cons_self _ _))
    have hne : y ≠ x := by
      intro h
      have := (List.nodup_cons.mp nd).1
      rw [h] at this
      exact this (List.mem_cons_self _ _)
    obtain ⟨a2, e1, e2, _⟩ := next_generation_cell_comm hg h1 h2 acc ha y x hy hx hne
    simp only [List.foldlM_cons]
    rw [← bind_assoc, ← bind_assoc]
    simp only [Option.bind_eq_bind] at e1 e2 ⊢
    rw [e1, e2]
  | trans hp1 _ ih1 ih2 =>
    intro hl nd acc ha
    rw [ih1 hl nd acc ha]
    exact ih2 (fun q hq => hl q (hp1.mem_iff.mpr hq)) (hp1.nodup_iff.mp nd) acc ha

/-- Claim C10. On any `N` x `N` board of bytes, `3 ≤ N ≤ 200`, `update_grid` calls on two
distinct in-bounds cells commute: `update_grid(p, s)` followed by `update_grid(q, t)`
returns exactly the board that `update_grid(q, t)` followed by `update_grid(p, s)` returns.
Hence the board `next_generation` returns does not depend on the order of the visit: the
loop of `next_generation` run over any permutation of the cells returns the board that
`next_generation` returns. -/
theorem C10_updates_commute (N : Nat) (h1 : 3 ≤ N) (h2 : N ≤ 200) (g : Grid)
    (hg : IsGrid N g) (p q : Position) (hp : p.x < N ∧ p.y < N) (hq : q.x < N ∧ q.y < N)
    (hpq : p ≠ q) (s t : Cell_State) :
    (∃ g', ((update_grid g p s).bind fun g1 => update_grid g1 q t) = some g' ∧
      ((update_grid g q t).bind fun g1 => update_grid g1 p s) = some g') ∧
    (∃ g', next_generation g = some g' ∧
      ∀ order : List (Nat × Nat), order.Perm (visitOrder N N) →
        next_generation_in_order order g = some g') := by
  constructor
  · obtain ⟨g', e1, e2, _⟩ := update_grid_comm hg h1 h2 p q hp hq hpq s t
    exact ⟨g', e1, e2⟩
  · obtain ⟨g', e, _⟩ := next_generation_loop_isGrid hg h1 h2 (visitOrder N N) g hg
      (fun p hp => (mem_visitOrder N N p).mp hp)
    refine ⟨g', ?_, ?_⟩
    · rw [next_generation_eq_in_order hg (by omega)]
      exact e
    · intro order hperm
      unfold next_generation_in_order
      rw [← e]
      exact next_generation_loop_perm hg h1 h2 hperm
        (fun p hp => (mem_visitOrder N N p).mp (hperm.mem_iff.mp hp))
        (hperm.nodup_iff.mpr (visitOrder_nodup N N)) g hg

/-! ## Boards whose live cells form a rectangle of index sets -/

theorem get_cell_state_le_one (v : Nat) : get_cell_state v = 0 ∨ get_cell_state v = 1 := by
  rw [get_cell_state_eq]; omega

theorem liveNeighbours_rect {N : Nat} {g : Grid} (A B : Nat → Prop) [DecidablePred A]
    [DecidablePred B]
    (hst : ∀ a < N, ∀ b < N, (get_cell_state (cellAt g a b) = 1 ↔ A a ∧ B b))
    (i j : Nat) (hi : i < N) (hj : j < N) :
    liveNeighbours N g i j = row3 N A i * row3 N B j - ind (A i) * ind (B j) := by
  have a1 := wrapDec_lt N i hi
  have a2 := wrapInc_lt N i hi
  have b1 := wrapDec_lt N j hj
  have b2 := wrapInc_lt N j hj
  unfold liveNeighbours
  rw [toroidalNeighbours_eq N i j hi hj]
  simp only [wrappedNeighbours, List.countP_cons, List.countP_nil, decide_eq_true_eq,
    hst _ a1 _ b1, hst _ hi _ b1, hst _ a2 _ b1, hst _ a1 _ hj, hst _ a2 _ hj,
    hst _ a1 _ b2, hst _ hi _ b2, hst _ a2 _ b2, row3, ind]
  by_cases p1 : A (wrapDec N i) <;> by_cases p2 : A i <;> by_cases p3 : A (wrapInc N i) <;>
    by_cases q1 : B (wrapDec N j) <;> by_cases q2 : B j <;> by_cases q3 : B (wrapInc N j) <;>
    simp [p1, p2, p3, q1, q2, q3]

theorem wrapDec_cases (N x : Nat) :
    (0 < x ∧ wrapDec N x = x - 1) ∨ (x = 0 ∧ wrapDec N x = N - 1) := by
  unfold wrapDec; split_ifs <;> omega

theorem wrapInc_cases (N x : Nat) :
    (x < N - 1 ∧ wrapInc N x = x + 1) ∨ (N - 1 ≤ x ∧ wrapInc N x = 0) := by
  unfold wrapInc; split_ifs <;> omega

theorem row3_point (N y j : Nat) (hN : 3 ≤ N) (hy : y < N) (hj : j < N) :
    row3 N (fun b => b = y) j = ind (Adj N y j) := by
  have c1 := wrapDec_cases N y
  have c2 := wrapInc_cases N y
  have c3 := wrapDec_cases N j
  have c4 := wrapInc_cases N j
  unfold row3 ind Adj
  beta_reduce
  split_ifs <;> omega

theorem row3_triple (N x i : Nat) (hN : 5 ≤ N) (hx : x < N) (hi : i < N) :
    (i = x → row3 N (Adj N x) i = 3) ∧
    (Adj N x i → i ≠ x → row3 N (Adj N x) i = 2) ∧
    (¬ Adj N x i → row3 N (Adj N x) i ≤ 1) := by
  have c1 := wrapDec_cases N x
  have c2 := wrapInc_cases N x
  have c3 := wrapDec_cases N i
  have c4 := wrapInc_cases N i
  unfold row3 ind Adj
  split_ifs <;> omega

theorem row3_pair (N x i : Nat) (hN : 4 ≤ N) (hx : x < N) (hi : i < N) :
    ((i = x ∨ i = wrapInc N x) → row3 N (fun a => a = x ∨ a = wrapInc N x) i = 2) ∧
    (¬ (i = x ∨ i = wrapInc N x) → row3 N (fun a => a = x ∨ a = wrapInc N x) i ≤ 1) := by
  have c2 := wrapInc_cases N x
  have c3 := wrapDec_cases N i
  have c4 := wrapInc_cases N i
  unfold row3 ind
  beta_reduce
  split_ifs <;> omega

theorem line_rule (T C Pt Ad : Prop) [Decidable T] [Decidable Pt] [Decidable Ad]
    (rT rP cnt st : Nat) (hCT : C → T) (hPA : Pt → Ad) (h3 : C → rT = 3)
    (h2 : T → ¬ C → rT = 2) (h1 : ¬ T → rT ≤ 1) (hP : rP = ind Ad)
    (hcnt : cnt = rT * rP - ind T * ind Pt) (hst : st = 1 ↔ T ∧ Pt) (h01 : st = 0 ∨ st = 1) :
    ((st = 0 ∧ cnt = 3) ∨ (st = 1 ∧ (cnt = 2 ∨ cnt = 3))) ↔ C ∧ Ad := by
  subst hP
  by_cases hAd : Ad
  · have e1 : ind Ad = 1 := if_pos hAd
    rw [e1, Nat.mul_one] at hcnt
    by_cases hT : T
    · have e2 : ind T = 1 := if_pos hT
      by_cases hPt : Pt
      · have e3 : ind Pt = 1 := if_pos hPt
        rw [e2, e3] at hcnt
        have hs : st = 1 := hst.mpr ⟨hT, hPt⟩
        by_cases hC : C
        · have := h3 hC
          simp only [hC, hAd, and_self, iff_true]
          omega
        · have := h2 hT hC
          simp only [hC, false_and, iff_false]
          omega
      · have e3 : ind Pt = 0 := if_neg hPt
        rw [e2, e3] at hcnt
        have hs : st ≠ 1 := fun h => hPt (hst.mp h).2
        by_cases hC : C
        · have := h3 hC
          simp only [hC, hAd, and_self, iff_true]
          omega
        · have := h2 hT hC
          simp only [hC, false_and, iff_false]
          omega
    · have e2 : ind T = 0 := if_neg hT
      rw [e2, Nat.zero_mul] at hcnt
      have hs : st ≠ 1 := fun h => hT (hst.mp h).1
      have hC : ¬ C := fun h => hT (hCT h)
      have := h1 hT
      simp only [hC, false_and, iff_false]
      omega
  · have e1 : ind Ad = 0 := if_neg hAd
    rw [e1, Nat.mul_zero, Nat.zero_sub] at hcnt
    have hs : st ≠ 1 := fun h => hAd (hPA (hst.mp h).2)
    simp only [hAd, and_false, iff_false]
    omega

theorem block_rule (Pa Pb : Prop) [Decidable Pa] [Decidable Pb] (ra rb cnt st : Nat)
    (ha2 : Pa → ra = 2) (ha1 : ¬ Pa → ra ≤ 1) (hb2 : Pb → rb = 2) (hb1 : ¬ Pb → rb ≤ 1)
    (hcnt : cnt = ra * rb - ind Pa * ind Pb) (hst : st = 1 ↔ Pa ∧ Pb) :
    ((st = 0 ∧ cnt = 3) ∨ (st = 1 ∧ (cnt = 2 ∨ cnt = 3))) ↔ Pa ∧ Pb := by
  by_cases hA : Pa
  · have e1 : ind Pa = 1 := if_pos hA
    have := ha2 hA
    subst this
    by_cases hB : Pb
    · have e2 : ind Pb = 1 := if_pos hB
      have := hb2 hB
      subst this
      rw [e1, e2] at hcnt
      have hs : st = 1 := hst.mpr ⟨hA, hB⟩
      simp only [hA, hB, and_self, iff_true]
      omega
    · have e2 : ind Pb = 0 := if_neg hB
      have := hb1 hB
      rw [e1, e2] at hcnt
      have hs : st ≠ 1 := fun h => hB (hst.mp h).2
      simp only [hB, and_false, iff_false]
      omega
  · have e1 : ind Pa = 0 := if_neg hA
    have := ha1 hA
    rw [e1, Nat.zero_mul, Nat.sub_zero] at hcnt
    have hs : st ≠ 1 := fun h => hA (hst.mp h).1
    simp only [hA, false_and, iff_false]
    by_cases hB : Pb
    · have := hb2 hB
      subst this
      omega
    · have hb := hb1 hB
      have : ra * rb ≤ 1 * 1 := Nat.mul_le_mul this hb
      omega

/-! ## Seeding a pattern and stepping it -/

theorem setAlive_spec {N : Nat} (h1 : 3 ≤ N) (h2 : N ≤ 200) :
    ∀ (cells : List (Nat × Nat)) (g : Grid), IsGrid N g → CountsConsistent N g →
      (∀ p ∈ cells, p.1 < N ∧ p.2 < N) → cells.Nodup →
      (∀ p ∈ cells, get_cell_state (cellAt g p.1 p.2) = 0) →
      ∃ g', setAlive cells g = some g' ∧ IsGrid N g' ∧ CountsConsistent N g' ∧
        ∀ i j, get_cell_state (cellAt g' i j) =
          if (i, j) ∈ cells then 1 else get_cell_state (cellAt g i j) := by
  intro cells
  induction cells with
  | nil =>
    intro g hg hc _ _ _
    exact ⟨g, rfl, hg, hc, fun i j => by simp⟩
  | cons p rest ih =>
    intro g hg hc hl nd hdead
    obtain ⟨hx, hy⟩ := hl p (List.mem_cons_self _ _)
    obtain ⟨hnot, nd2⟩ := List.nodup_cons.mp nd
    have hp0 := hdead p (List.mem_cons_self _ _)
    have hflip : get_cell_state (cellAt g p.1 p.2) ≠ Cell_State.alive.toNat := by
      rw [hp0]; decide
    obtain ⟨g1, e1, hg1, hc1, hcell⟩ :=
      update_grid_flip hg hc h1 h2 ⟨p.1, p.2⟩ hx hy Cell_State.alive hflip
    have hst1 : ∀ i j, get_cell_state (cellAt g1 i j) =
        if i = p.1 ∧ j = p.2 then 1 else get_cell_state (cellAt g i j) := by
      intro i j
      rw [hcell, get_cell_state_updatedByte _ _ _ _ _ _ _ (hg.cellAt_lt i j)]
      rfl
    have hdead1 : ∀ q ∈ rest, get_cell_state (cellAt g1 q.1 q.2) = 0 := by
      intro q hq
      have hne : ¬ (q.1 = p.1 ∧ q.2 = p.2) := by
        rintro ⟨h3, h4⟩
        exact hnot (by rw [← Prod.ext h3 h4]; exact hq)
      rw [hst1, if_neg hne]
      exact hdead q (List.mem_cons_of_mem _ hq)
    obtain ⟨g2, e2, hg2, hc2, hst2⟩ := ih g1 hg1 hc1
      (fun q hq => hl q (List.mem_cons_of_mem _ hq)) nd2 hdead1
    refine ⟨g2, ?_, hg2, hc2, ?_⟩
    · unfold setAlive at e2 ⊢
      rw [List.map_cons, applyUpdates, e1]
      exact e2
    · intro i j
      rw [hst2, hst1]
      by_cases hm : (i, j) ∈ rest
      · simp [hm]
      · by_cases he : i = p.1 ∧ j = p.2
        · have : (i, j) = p := Prod.ext he.1 he.2
          simp [hm, he, this]
        · have hne : ¬ ((i, j) = p) := by
            rintro rfl
            exact he ⟨rfl, rfl⟩
          simp [hm, he, hne]

theorem liveNeighbours_congr {N : Nat} {g g' : Grid} (i j : Nat) (hi : i < N) (hj : j < N)
    (hst : ∀ a < N, ∀ b < N, get_cell_state (cellAt g a b) = get_cell_state (cellAt g' a b)) :
    liveNeighbours N g i j = liveNeighbours N g' i j := by
  unfold liveNeighbours
  apply List.countP_congr
  intro p hp
  rw [toroidalNeighbours_eq N i j hi hj] at hp
  obtain ⟨ha, hb⟩ := wrappedNeighbours_lt N i j hi hj p hp
  simp only [decide_eq_true_eq, hst p.1 ha p.2 hb]

/-- Two consistent boards with the same live cells are equal, stored counts included. -/
theorem consistent_ext {N : Nat} {g g' : Grid} (hg : IsGrid N g) (hg' : IsGrid N g')
    (hc : CountsConsistent N g) (hc' : CountsConsistent N g')
    (hst : ∀ a < N, ∀ b < N, get_cell_state (cellAt g a b) = get_cell_state (cellAt g' a b)) :
    g = g' := by
  apply hg.ext hg'
  intro i hi j hj
  have e1 := hc i hi j hj
  have e2 := hc' i hi j hj
  have e3 := hst i hi j hj
  rw [liveNeighbours_congr i j hi hj hst, ← e2] at e1
  rw [get_neighbor_count_eq, get_neighbor_count_eq] at e1
  rw [get_cell_state_eq, get_cell_state_eq] at e3
  omega

/-- On a consistent board `next_generation` returns a consistent board whose live cells
are given by the B3/S23 rule with brute-force neighbour counts. -/
theorem next_generation_life {N : Nat} {g : Grid} (hg : IsGrid N g)
    (hc : CountsConsistent N g) (h1 : 3 ≤ N) (h2 : N ≤ 200) :
    ∃ g', next_generation g = some g' ∧ IsGrid N g' ∧ CountsConsistent N g' ∧
      ∀ x < N, ∀ y < N,
        (get_cell_state (cellAt g' x y) = 1 ↔
          (get_cell_state (cellAt g x y) = 0 ∧ liveNeighbours N g x y = 3) ∨
          (get_cell_state (cellAt g x y) = 1 ∧
            (liveNeighbours N g x y = 2 ∨ liveNeighbours N g x y = 3))) := by
  obtain ⟨g', e, hg', hc', hst⟩ := next_generation_spec hg hc h1 h2
  refine ⟨g', e, hg', hc', ?_⟩
  intro x hx y hy
  rw [hst x hx y hy, nextState_eq_one_iff, hc x hx y hy]

theorem state_eq_of_iff {u v : Nat} (h : get_cell_state u = 1 ↔ get_cell_state v = 1) :
    get_cell_state u = get_cell_state v := by
  have a := get_cell_state_le_one u
  have b := get_cell_state_le_one v
  omega

/-- One generation turns a horizontal line of three into the vertical line through the
same centre. -/
theorem step_horizontal {N : Nat} {g : Grid} (hg : IsGrid N g) (hc : CountsConsistent N g)
    (h1 : 5 ≤ N) (h2 : N ≤ 200) (x y : Nat) (hx : x < N) (hy : y < N)
    (hst : ∀ a < N, ∀ b < N, (get_cell_state (cellAt g a b) = 1 ↔ Adj N x a ∧ b = y)) :
    ∃ g', next_generation g = some g' ∧ IsGrid N g' ∧ CountsConsistent N g' ∧
      ∀ a < N, ∀ b < N, (get_cell_state (cellAt g' a b) = 1 ↔ a = x ∧ Adj N y b) := by
  obtain ⟨g', e, hg', hc', hlife⟩ := next_generation_life hg hc (by omega) h2
  refine ⟨g', e, hg', hc', ?_⟩
  intro a ha b hb
  rw [hlife a ha b hb]
  obtain ⟨t3, t2, t1⟩ := row3_triple N x a h1 hx ha
  exact line_rule (Adj N x a) (a = x) (b = y) (Adj N y b) _ _ _ _
    (fun h => Or.inr (Or.inl h)) (fun h => Or.inr (Or.inl h)) t3 t2 t1
    (row3_point N y b (by omega) hy hb)
    (liveNeighbours_rect (fun a => Adj N x a) (fun b => b = y) hst a b ha hb)
    (hst a ha b hb) (get_cell_state_le_one _)

/-- One generation turns a vertical line of three into the horizontal line through the
same centre. -/
theorem step_vertical {N : Nat} {g : Grid} (hg : IsGrid N g) (hc : CountsConsistent N g)
    (h1 : 5 ≤ N) (h2 : N ≤ 200) (x y : Nat) (hx : x < N) (hy : y < N)
    (hst : ∀ a < N, ∀ b < N, (get_cell_state (cellAt g a b) = 1 ↔ a = x ∧ Adj N y b)) :
    ∃ g', next_generation g = some g' ∧ IsGrid N g' ∧ CountsConsistent N g' ∧
      ∀ a < N, ∀ b < N, (get_cell_state (cellAt g' a b) = 1 ↔ Adj N x a ∧ b = y) := by
  obtain ⟨g', e, hg', hc', hlife⟩ := next_generation_life hg hc (by omega) h2
  refine ⟨g', e, hg', hc', ?_⟩
  intro a ha b hb
  rw [hlife a ha b hb]
  obtain ⟨t3, t2, t1⟩ := row3_triple N y b h1 hy hb
  have hcnt := liveNeighbours_rect (fun a => a = x) (fun b => Adj N y b) hst a b ha hb
  rw [Nat.mul_comm (row3 N _ a), Nat.mul_comm (ind _)] at hcnt
  have := line_rule (Adj N y b) (b = y) (a = x) (Adj N x a) _ _ _ _
    (fun h => Or.inr (Or.inl h)) (fun h => Or.inr (Or.inl h)) t3 t2 t1
    (row3_point N x a (by omega) hx ha) hcnt
    ((hst a ha b hb).trans and_comm) (get_cell_state_le_one _)
  rw [this]
  exact and_comm

/-- One generation leaves a 2 x 2 block as it is. -/
theorem step_block {N : Nat} {g : Grid} (hg : IsGrid N g) (hc : CountsConsistent N g)
    (h1 : 4 ≤ N) (h2 : N ≤ 200) (x y : Nat) (hx : x < N) (hy : y < N)
    (hst : ∀ a < N, ∀ b < N, (get_cell_state (cellAt g a b) = 1 ↔
      (a = x ∨ a = wrapInc N x) ∧ (b = y ∨ b = wrapInc N y))) :
    next_generation g = some g := by
  obtain ⟨g', e, hg', hc', hlife⟩ := next_generation_life hg hc (by omega) h2
  rw [e]
  congr 1
  apply consistent_ext hg' hg hc' hc
  intro a ha b hb
  apply state_eq_of_iff
  rw [hlife a ha b hb]
  refine Iff.trans ?_ (hst a ha b hb).symm
  obtain ⟨p2, p1⟩ := row3_pair N x a h1 hx ha
  obtain ⟨q2, q1⟩ := row3_pair N y b h1 hy hb
  exact block_rule (a = x ∨ a = wrapInc N x) (b = y ∨ b = wrapInc N y) _ _ _ _ p2 p1 q2 q1
    (liveNeighbours_rect (fun a => a = x ∨ a = wrapInc N x) (fun b => b = y ∨ b = wrapInc N y)
      hst a b ha hb)
    (hst a ha b hb)

theorem mem_horizontalLine (N x y a b : Nat) (hx : x < N) :
    (a, b) ∈ horizontalLine N x y ↔ Adj N x a ∧ b = y := by
  simp only [horizontalLine, mod_dec_eq N x hx, mod_inc_eq N x hx, List.mem_cons,
    List.mem_singleton, Prod.mk.injEq, List.not_mem_nil, or_false, Adj]
  constructor
  · rintro (⟨h, rfl⟩ | ⟨h, rfl⟩ | ⟨h, rfl⟩)
    · exact ⟨Or.inl h, rfl⟩
    · exact ⟨Or.inr (Or.inl h), rfl⟩
    · exact ⟨Or.inr (Or.inr h), rfl⟩
  · rintro ⟨h | h | h, rfl⟩
    · exact Or.inl ⟨h, rfl⟩
    · exact Or.inr (Or.inl ⟨h, rfl⟩)
    · exact Or.inr (Or.inr ⟨h, rfl⟩)

theorem mem_verticalLine (N x y a b : Nat) (hy : y < N) :
    (a, b) ∈ verticalLine N x y ↔ a = x ∧ Adj N y b := by
  simp only [verticalLine, mod_dec_eq N y hy, mod_inc_eq N y hy, List.mem_cons,
    List.mem_singleton, Prod.mk.injEq, List.not_mem_nil, or_false, Adj]
  constructor
  · rintro (⟨rfl, h⟩ | ⟨rfl, h⟩ | ⟨rfl, h⟩)
    · exact ⟨rfl, Or.inl h⟩
    · exact ⟨rfl, Or.inr (Or.inl h)⟩
    · exact ⟨rfl, Or.inr (Or.inr h)⟩
  · rintro ⟨rfl, h | h | h⟩
    · exact Or.inl ⟨rfl, h⟩
    · exact Or.inr (Or.inl ⟨rfl, h⟩)
    · exact Or.inr (Or.inr ⟨rfl, h⟩)

theorem mem_block (N x y a b : Nat) (hx : x < N) (hy : y < N) :
    (a, b) ∈ block N x y ↔ (a = x ∨ a = wrapInc N x) ∧ (b = y ∨ b = wrapInc N y) := by
  simp only [block, mod_inc_eq N x hx, mod_inc_eq N y hy, List.mem_cons,
    List.mem_singleton, Prod.mk.injEq, List.not_mem_nil, or_false]
  constructor
  · rintro (⟨rfl, rfl⟩ | ⟨rfl, rfl⟩ | ⟨rfl, rfl⟩ | ⟨rfl, rfl⟩)
    · exact ⟨Or.inl rfl, Or.inl rfl⟩
    · exact ⟨Or.inr rfl, Or.inl rfl⟩
    · exact ⟨Or.inl rfl, Or.inr rfl⟩
    · exact ⟨Or.inr rfl, Or.inr rfl⟩
  · rintro ⟨rfl | rfl, rfl | rfl⟩
    · exact Or.inl ⟨rfl, rfl⟩
    · exact Or.inr (Or.inr (Or.inl ⟨rfl, rfl⟩))
    · exact Or.inr (Or.inl ⟨rfl, rfl⟩)
    · exact Or.inr (Or.inr (Or.inr ⟨rfl, rfl⟩))

theorem horizontalLine_ok (N x y : Nat) (hN : 3 ≤ N) (hx : x < N) (hy : y < N) :
    (horizontalLine N x y).Nodup ∧ ∀ p ∈ horizontalLine N x y, p.1 < N ∧ p.2 < N := by
  obtain ⟨a1, a2, a3⟩ := wrap_ne N x hN hx
  have b1 := wrapDec_lt N x hx
  have b2 := wrapInc_lt N x hx
  constructor
  · simp only [horizontalLine, mod_dec_eq N x hx, mod_inc_eq N x hx, List.nodup_cons,
      List.mem_cons, List.mem_singleton, Prod.mk.injEq, List.not_mem_nil, List.nodup_nil,
      and_true, or_false, not_false_eq_true]
    omega
  · intro p hp
    obtain ⟨a, b⟩ := p
    obtain ⟨h | h | h, rfl⟩ := (mem_horizontalLine N x y a b hx).mp hp
    · exact ⟨by rw [h]; exact b1, hy⟩
    · exact ⟨by rw [h]; exact hx, hy⟩
    · exact ⟨by rw [h]; exact b2, hy⟩

theorem block_ok (N x y : Nat) (hN : 3 ≤ N) (hx : x < N) (hy : y < N) :
    (block N x y).Nodup ∧ ∀ p ∈ block N x y, p.1 < N ∧ p.2 < N := by
  obtain ⟨_, a2, _⟩ := wrap_ne N x hN hx
  obtain ⟨_, c2, _⟩ := wrap_ne N y hN hy
  have b2 := wrapInc_lt N x hx
  have d2 := wrapInc_lt N y hy
  constructor
  · simp only [block, mod_inc_eq N x hx, mod_inc_eq N y hy, List.nodup_cons,
      List.mem_cons, List.mem_singleton, Prod.mk.injEq, List.not_mem_nil, List.nodup_nil,
      and_true, true_and, or_false, not_false_eq_true]
    omega
  · intro p hp
    obtain ⟨a, b⟩ := p
    obtain ⟨h | h, k | k⟩ := (mem_block N x y a b hx hy).mp hp <;> subst h <;> subst k <;>
      exact ⟨by assumption, by assumption⟩

theorem setAlive_initialize_grid {N : Nat} (h1 : 3 ≤ N) (h2 : N ≤ 200)
    (cells : List (Nat × Nat)) (nd : cells.Nodup) (hl : ∀ p ∈ cells, p.1 < N ∧ p.2 < N) :
    ∃ g, setAlive cells (initialize_grid N) = some g ∧ IsGrid N g ∧ CountsConsistent N g ∧
      ∀ i j, (get_cell_state (cellAt g i j) = 1 ↔ (i, j) ∈ cells) := by
  obtain ⟨g, e, hg, hc, hst⟩ := setAlive_spec h1 h2 cells (initialize_grid N)
    (isGrid_initialize_grid N) (countsConsistent_initialize_grid N) hl nd
    (fun p _ => by rw [cellAt_initialize_grid]; rfl)
  refine ⟨g, e, hg, hc, ?_⟩
  intro i j
  rw [hst, cellAt_initialize_grid]
  by_cases hm : (i, j) ∈ cells
  · simp [hm]
  · simp [hm, get_cell_state]

/-- Claim C6. For `6 ≤ N ≤ 200` and every in-bounds centre `(x, y)`: setting alive, by
`update_grid` calls on `initialize_grid N`, the horizontal line `(x-1, y)`, `(x, y)`,
`(x+1, y)` (indices modulo `N`) produces a board whose live cells are exactly that line;
one `next_generation` call turns it into a board whose live cells are exactly the vertical
line `(x, y-1)`, `(x, y)`, `(x, y+1)`; a second `next_generation` call returns the
original board, equal in every stored byte. -/
theorem C6_blinker_oscillates (N : Nat) (h1 : 6 ≤ N) (h2 : N ≤ 200) (x y : Nat)
    (hx : x < N) (hy : y < N) :
    ∃ g0 g1, setAlive (horizontalLine N x y) (initialize_grid N) = some g0 ∧
      (∀ i < N, ∀ j < N,
        (get_cell_state (cellAt g0 i j) = 1 ↔ (i, j) ∈ horizontalLine N x y)) ∧
      next_generation g0 = some g1 ∧
      (∀ i < N, ∀ j < N,
        (get_cell_state (cellAt g1 i j) = 1 ↔ (i, j) ∈ verticalLine N x y)) ∧
      next_generation g1 = some g0 := by
  obtain ⟨nd, hl⟩ := horizontalLine_ok N x y (by omega) hx hy
  obtain ⟨g0, e0, hg0, hc0, hst0⟩ := setAlive_initialize_grid (by omega) h2 _ nd hl
  have hA0 : ∀ a < N, ∀ b < N, (get_cell_state (cellAt g0 a b) = 1 ↔ Adj N x a ∧ b = y) :=
    fun a _ b _ => (hst0 a b).trans (mem_horizontalLine N x y a b hx)
  obtain ⟨g1, e1, hg1, hc1, hst1⟩ := step_horizontal hg0 hc0 (by omega) h2 x y hx hy hA0
  obtain ⟨g2, e2, hg2, hc2, hst2⟩ := step_vertical hg1 hc1 (by omega) h2 x y hx hy hst1
  have h20 : g2 = g0 := by
    apply consistent_ext hg2 hg0 hc2 hc0
    intro a ha b hb
    exact state_eq_of_iff ((hst2 a ha b hb).trans (hA0 a ha b hb).symm)
  refine ⟨g0, g1, e0, fun i _ j _ => hst0 i j, e1, ?_, ?_⟩
  · intro i hi j hj
    exact (hst1 i hi j hj).trans (mem_verticalLine N x y i j hy).symm
  · rw [e2, h20]

/-- Claim C7. For `6 ≤ N ≤ 200` and every in-bounds `(x, y)`: setting alive, by `update_grid`
calls on `initialize_grid N`, the 2 x 2 block `(x, y)`, `(x+1, y)`, `(x, y+1)`,
`(x+1, y+1)` (indices modulo `N`) produces a board whose live cells are exactly the block
and which `next_generation` returns unchanged, equal in every stored byte. -/
theorem C7_block_is_still (N : Nat) (h1 : 6 ≤ N) (h2 : N ≤ 200) (x y : Nat)
    (hx : x < N) (hy : y < N) :
    ∃ g0, setAlive (block N x y) (initialize_grid N) = some g0 ∧
      (∀ i < N, ∀ j < N, (get_cell_state (cellAt g0 i j) = 1 ↔ (i, j) ∈ block N x y)) ∧
      next_generation g0 = some g0 := by
  obtain ⟨nd, hl⟩ := block_ok N x y (by omega) hx hy
  obtain ⟨g0, e0, hg0, hc0, hst0⟩ := setAlive_initialize_grid (by omega) h2 _ nd hl
  refine ⟨g0, e0, fun i _ j _ => hst0 i j, ?_⟩
  exact step_block hg0 hc0 (by omega) h2 x y hx hy
    (fun a _ b _ => (hst0 a b).trans (mem_block N x y a b hx hy))

/-! ## Concrete instances -/

/-- Witness for C2 on `oneCellBoard`. -/
theorem C2_next_generation_is_B3S23_witness :
    3 ≤ 3 ∧ 3 ≤ 200 ∧ IsGrid 3 oneCellBoard ∧ CountsConsistent 3 oneCellBoard ∧
    ∃ g', next_generation oneCellBoard = some g' ∧
      ∀ x < 3, ∀ y < 3,
        (get_cell_state (cellAt g' x y) = 1 ↔
          (get_cell_state (cellAt oneCellBoard x y) = 0 ∧
            liveNeighbours 3 oneCellBoard x y = 3) ∨
          (get_cell_state (cellAt oneCellBoard x y) = 1 ∧
            (liveNeighbours 3 oneCellBoard x y = 2 ∨ liveNeighbours 3 oneCellBoard x y = 3))) :=
  ⟨by decide, by decide, by decide, by decide,
    C2_next_generation_is_B3S23 3 (by decide) (by decide) oneCellBoard (by decide) (by decide)⟩

/-- Witness for C3 on `oneCellBoard`. -/
theorem C3_next_generation_preserves_counts_witness :
    3 ≤ 3 ∧ 3 ≤ 200 ∧ IsGrid 3 oneCellBoard ∧ CountsConsistent 3 oneCellBoard ∧
    ∃ g', next_generation oneCellBoard = some g' ∧ IsGrid 3 g' ∧
      ∀ x < 3, ∀ y < 3, get_neighbor_count (cellAt g' x y) = liveNeighbours 3 g' x y :=
  ⟨by decide, by decide, by decide, by decide,
    C3_next_generation_preserves_counts 3 (by decide) (by decide) oneCellBoard (by decide)
      (by decide)⟩

/-- Witness for C4 on the dead 3 x 3 board. -/
theorem C4_corner_update_wraps_around_witness :
    3 ≤ 3 ∧ 3 ≤ 200 ∧ IsGrid 3 (initialize_grid 3) ∧ CountsConsistent 3 (initialize_grid 3) ∧
    get_cell_state (cellAt (initialize_grid 3) 0 0) = 0 ∧
    ∃ g', update_grid (initialize_grid 3) ⟨0, 0⟩ Cell_State.alive = some g' ∧
      get_cell_state (cellAt g' 0 0) = 1 ∧
      (cornerNeighbours 3).Nodup ∧
      (∀ p ∈ cornerNeighbours 3,
        get_neighbor_count (cellAt g' p.1 p.2) =
          get_neighbor_count (cellAt (initialize_grid 3) p.1 p.2) + 1) ∧
      (∀ i j, (i, j) ∉ cornerNeighbours 3 → (i, j) ≠ (0, 0) →
        cellAt g' i j = cellAt (initialize_grid 3) i j) ∧
      get_neighbor_count (cellAt g' 0 0) = get_neighbor_count (cellAt (initialize_grid 3) 0 0) :=
  ⟨by decide, by decide, by decide, by decide, by decide,
    C4_corner_update_wraps_around 3 (by decide) (by decide) (initialize_grid 3) (by decide)
      (by decide) (by decide)⟩

/-- Witness for the amended C5: `(0, 0)` of `oneCellBoard` is alive and is set alive
again. -/
theorem C5_same_state_update_drifts_witness :
    3 ≤ 3 ∧ 3 ≤ 200 ∧ IsGrid 3 oneCellBoard ∧ CountsConsistent 3 oneCellBoard ∧
    0 < 3 ∧ get_cell_state (cellAt oneCellBoard 0 0) = Cell_State.alive.toNat ∧
    ∃ g', update_grid oneCellBoard ⟨0, 0⟩ Cell_State.alive = some g' ∧
      (∀ i j, get_cell_state (cellAt g' i j) = get_cell_state (cellAt oneCellBoard i j)) ∧
      ∀ p ∈ toroidalNeighbours 3 0 0,
        (Cell_State.alive = Cell_State.alive →
          get_neighbor_count (cellAt g' p.1 p.2) =
            get_neighbor_count (cellAt oneCellBoard p.1 p.2) + 1) ∧
        (Cell_State.alive = Cell_State.dead →
          1 ≤ get_neighbor_count (cellAt oneCellBoard p.1 p.2) →
          get_neighbor_count (cellAt g' p.1 p.2) + 1 =
            get_neighbor_count (cellAt oneCellBoard p.1 p.2)) ∧
        (Cell_State.alive = Cell_State.dead →
          get_neighbor_count (cellAt oneCellBoard p.1 p.2) = 0 →
          get_neighbor_count (cellAt g' p.1 p.2) = 127) :=
  ⟨by decide, by decide, by decide, by decide, by decide, by decide,
    C5_same_state_update_drifts 3 (by decide) (by decide) oneCellBoard (by decide) (by decide)
      0 0 (by decide) (by decide) Cell_State.alive (by decide)⟩

/-- Witness for C6: the blinker centred at `(0, 5)` on the 6 x 6 board, which wraps around
both borders. -/
theorem C6_blinker_oscillates_witness :
    6 ≤ 6 ∧ 6 ≤ 200 ∧ 0 < 6 ∧ 5 < 6 ∧
    ∃ g0 g1, setAlive (horizontalLine 6 0 5) (initialize_grid 6) = some g0 ∧
      (∀ i < 6, ∀ j < 6,
        (get_cell_state (cellAt g0 i j) = 1 ↔ (i, j) ∈ horizontalLine 6 0 5)) ∧
      next_generation g0 = some g1 ∧
      (∀ i < 6, ∀ j < 6,
        (get_cell_state (cellAt g1 i j) = 1 ↔ (i, j) ∈ verticalLine 6 0 5)) ∧
      next_generation g1 = some g0 :=
  ⟨by decide, by decide, by decide, by decide,
    C6_blinker_oscillates 6 (by decide) (by decide) 0 5 (by decide) (by decide)⟩

/-- Witness for C7: the block with corner `(5, 5)` on the 6 x 6 board, which wraps around
both borders. -/
theorem C7_block_is_still_witness :
    6 ≤ 6 ∧ 6 ≤ 200 ∧ 5 < 6 ∧ 5 < 6 ∧
    ∃ g0, setAlive (block 6 5 5) (initialize_grid 6) = some g0 ∧
      (∀ i < 6, ∀ j < 6, (get_cell_state (cellAt g0 i j) = 1 ↔ (i, j) ∈ block 6 5 5)) ∧
      next_generation g0 = some g0 :=
  ⟨by decide, by decide, by decide, by decide,
    C7_block_is_still 6 (by decide) (by decide) 5 5 (by decide) (by decide)⟩

/-- Witness for C8 on `arbitraryBoard`, cell `(2, 0)`. -/
theorem C8_indices_in_bounds_witness :
    3 ≤ 3 ∧ 3 ≤ 200 ∧ IsGrid 3 arbitraryBoard ∧ 2 < 3 ∧ 0 < 3 ∧
    (x_left arbitraryBoard ⟨2, 0⟩ < 3 ∧ x_right arbitraryBoard ⟨2, 0⟩ < 3 ∧
    (∃ col0, arbitraryBoard[0]? = some col0 ∧
      y_above col0.length ⟨2, 0⟩ < 3 ∧ y_below col0.length ⟨2, 0⟩ < 3 ∧
      ∀ p ∈ visitOrder arbitraryBoard.length col0.length, p.1 < 3 ∧ p.2 < 3) ∧
    (∃ g', update_grid arbitraryBoard ⟨2, 0⟩ Cell_State.dead = some g' ∧ IsGrid 3 g') ∧
    (∃ g', next_generation arbitraryBoard = some g' ∧ IsGrid 3 g')) :=
  ⟨by decide, by decide, by decide, by decide, by decide,
    C8_indices_in_bounds 3 (by decide) (by decide) arbitraryBoard (by decide) 2 0 (by decide)
      (by decide) Cell_State.dead⟩

/-- Witness for C9: five generations of the dead 3 x 3 board. -/
theorem C9_dead_board_stays_dead_witness :
    3 ≤ 3 ∧ 3 ≤ 200 ∧
    (next_generations 5 (initialize_grid 3) = some (initialize_grid 3) ∧
    ∀ x y, get_cell_state (cellAt (initialize_grid 3) x y) = 0 ∧
      get_neighbor_count (cellAt (initialize_grid 3) x y) = 0) :=
  ⟨by decide, by decide, C9_dead_board_stays_dead 3 (by decide) (by decide) 5⟩

/-- Witness for C10 on `arbitraryBoard`: `(0, 0)` set alive and `(1, 1)` set dead. -/
theorem C10_updates_commute_witness :
    3 ≤ 3 ∧ 3 ≤ 200 ∧ IsGrid 3 arbitraryBoard ∧ (0 < 3 ∧ 0 < 3) ∧ (1 < 3 ∧ 1 < 3) ∧
    (⟨0, 0⟩ : Position) ≠ ⟨1, 1⟩ ∧
    ((∃ g', ((update_grid arbitraryBoard ⟨0, 0⟩ Cell_State.alive).bind fun g1 =>
          update_grid g1 ⟨1, 1⟩ Cell_State.dead) = some g' ∧
        ((update_grid arbitraryBoard ⟨1, 1⟩ Cell_State.dead).bind fun g1 =>
          update_grid g1 ⟨0, 0⟩ Cell_State.alive) = some g') ∧
    (∃ g', next_generation arbitraryBoard = some g' ∧
      ∀ order : List (Nat × Nat), order.Perm (visitOrder 3 3) →
        next_generation_in_order order arbitraryBoard = some g')) :=
  ⟨by decide, by decide, by decide, by decide, by decide, by decide,
    C10_updates_commute 3 (by decide) (by decide) arbitraryBoard (by decide) ⟨0, 0⟩ ⟨1, 1⟩
      (by decide) (by decide) (by decide) Cell_State.alive Cell_State.dead⟩

end GameOfLife
